import Mathlib

/-
  Verification of the Question Bank Normalization & Transformation Pipeline
  (main_az104_adapter.py).

  The pipeline is shallowly embedded over a small value model:
  a pandas cell is either NaN/None (`Val.null`), a Python bool, an int,
  or a string.  `Val.toStr` is Python's str() on such a value
  (str(float('nan')) = "nan", str(True) = "True").

  String handling is modelled at the ASCII level (the data processed by the
  adapter is ASCII question text): Python str.strip()/lower()/upper() and the
  regex character classes \s, \w, [A-Za-z0-9] are embedded as the
  corresponding ASCII character predicates.

  Every recursive function is either structural or uses an explicit fuel
  argument that provably suffices, so all definitions reduce in the kernel
  and concrete runs can be checked by `decide` / `rfl`.
-/

/-- A pandas / Python scalar cell value. -/
inductive Val where
  | null : Val
  | bool (b : Bool) : Val
  | int (n : Int) : Val
  | str (s : String) : Val
deriving DecidableEq, Repr

/-- Python str() of a cell value; NaN prints as "nan". -/
def Val.toStr : Val → String
  | Val.null => "nan"
  | Val.bool true => "True"
  | Val.bool false => "False"
  | Val.int n => toString n
  | Val.str s => s

/-- pd.isna on a scalar. -/
def Val.isna : Val → Bool
  | Val.null => true
  | _ => false

/-- Python truthiness of a cell value (nan is truthy; "" and False and 0 are falsy). -/
def pyTruthy : Val → Bool
  | Val.null => true
  | Val.bool b => b
  | Val.int n => n != 0
  | Val.str s => s != ""

/-- ASCII whitespace, matching Python's str.strip() / regex \s on ASCII text. -/
def isWsC (c : Char) : Bool :=
  c = ' ' || c = '\t' || c = '\n' || c = '\r' || c = '\x0B' || c = '\x0C'

def isLowerAZ (c : Char) : Bool := 'a' ≤ c && c ≤ 'z'
def isUpperAZ (c : Char) : Bool := 'A' ≤ c && c ≤ 'Z'
def isDigitC (c : Char) : Bool := '0' ≤ c && c ≤ '9'
def isAlnumC (c : Char) : Bool := isLowerAZ c || isUpperAZ c || isDigitC c

/-- Regex word character \w (ASCII): [A-Za-z0-9_]. -/
def isWordC (c : Char) : Bool := isAlnumC c || c = '_'

/-- The letter class [A-Ja-j] used for option letters. -/
def isAJ (c : Char) : Bool := ('A' ≤ c && c ≤ 'J') || ('a' ≤ c && c ≤ 'j')

def lowerC (c : Char) : Char :=
  if isUpperAZ c then Char.ofNat (c.toNat + 32) else c

def upperC (c : Char) : Char :=
  if isLowerAZ c then Char.ofNat (c.toNat - 32) else c

/-- Python str.strip() (ASCII whitespace). -/
def pyStrip (s : String) : String :=
  String.mk (((s.data.dropWhile isWsC).reverse.dropWhile isWsC).reverse)

/-- Python str.lower() (ASCII). -/
def pyLower (s : String) : String := String.mk (s.data.map lowerC)

/-- Python str.upper() (ASCII). -/
def pyUpper (s : String) : String := String.mk (s.data.map upperC)

/-- Split a char list into the maximal runs of characters satisfying p
    (used to embed re.split on the complementary class, dropping empties). -/
def runsAux (p : Char → Bool) : List Char → List Char → List (List Char)
  | [], cur => if cur = [] then [] else [cur.reverse]
  | c :: rest, cur =>
      if p c then runsAux p rest (c :: cur)
      else if cur = [] then runsAux p rest [] else cur.reverse :: runsAux p rest []

def runsOf (p : Char → Bool) (l : List Char) : List (List Char) := runsAux p l []

/-- Substring test: does sub occur in l (re.search of a literal)? -/
def containsSub (l sub : List Char) : Bool :=
  (List.range (l.length + 1)).any fun i => sub.isPrefixOf (l.drop i)

/-- The decimal digit character of d (callers pass d < 10). -/
def digitChar (d : Nat) : Char :=
  match d with
  | 0 => '0' | 1 => '1' | 2 => '2' | 3 => '3' | 4 => '4'
  | 5 => '5' | 6 => '6' | 7 => '7' | 8 => '8' | _ => '9'

/-- Decimal digits of a natural number, most significant first.
    Fuel-structural so that it reduces in the kernel; fuel n+1 always suffices. -/
def natDigsF : Nat → Nat → List Char
  | _, 0 => []
  | n, f + 1 =>
      if n < 10 then [digitChar n]
      else natDigsF (n / 10) f ++ [digitChar (n % 10)]

/-- Decimal value of a digit string (inverse of natDigsF, for injectivity). -/
def parseDigs (l : List Char) : Nat :=
  l.foldl (fun a c => a * 10 + (c.toNat - 48)) 0

/-- Python str(n) for a natural number. -/
def pyNatStr (n : Nat) : String := String.mk (natDigsF n (n + 1))

/-- Python f"{n:03d}": zero-pad to width 3. -/
def pad3 (n : Nat) : List Char :=
  let d := natDigsF n (n + 1)
  List.replicate (3 - d.length) '0' ++ d

/-- Python f"{n:02d}": zero-pad to width 2. -/
def pad2 (n : Nat) : List Char :=
  let d := natDigsF n (n + 1)
  List.replicate (2 - d.length) '0' ++ d

/- --------------------------------------------------------------------------
   Python dict embedding: insertion-ordered association list, last value wins.
--------------------------------------------------------------------------- -/

/-- dict assignment d[k] = v : replaces in place, or appends a new key. -/
def dictInsert (m : List (String × α)) (k : String) (v : α) : List (String × α) :=
  if m.any (fun p => p.1 == k) then
    m.map (fun p => if p.1 == k then (k, v) else p)
  else m ++ [(k, v)]

/-- dict built from a list of (key, value) assignments in order. -/
def dictOf (ps : List (String × α)) : List (String × α) :=
  ps.foldl (fun m p => dictInsert m p.1 p.2) []

/-- d.get(k) (first — and in a well-formed dict, only — binding). -/
def dGet (m : List (String × α)) (k : String) : Option α := List.lookup k m

/-- pandas Series.unique(): distinct values, first occurrence order. -/
def pyUnique [BEq α] (l : List α) : List α :=
  l.foldl (fun acc a => if acc.contains a then acc else acc ++ [a]) []

/- --------------------------------------------------------------------------
   Input rows (the fixed 14-column schema produced by normalize_columns).
--------------------------------------------------------------------------- -/

/-- One raw input record after column reconciliation: the 14 canonical
    columns, each holding an arbitrary cell value. -/
structure Row where
  Question : Val
  Options : Val
  Question_Type : Val
  has_image : Val
  CorrectOptions : Val
  Explanation : Val
  Hints : Val
  Category : Val
  Collection : Val
  Quiz : Val
  Tag : Val
  difficulty : Val
  isPublic : Val
  Status : Val
deriving DecidableEq, Repr

/-- A normalized row, after ensure_required_metadata. -/
structure NRow where
  Question : Val
  Options : Val
  Question_Type : String
  has_image : Bool
  CorrectOptions : Val
  Explanation : Val
  Hints : String
  Category : String
  Collection : Val
  Quiz : Val
  Tag : Val
  difficulty : String
  isPublic : Bool
  Status : String
deriving DecidableEq, Repr

def DEFAULT_CATEGORY_NAME : String := "MICROSOFT"
def DEFAULT_COLLECTION_NAME : String := "Microsoft Azure"
def DEFAULT_PASSMARK : Nat := 70
def DEFAULT_POINTS : Nat := 1

/-- fillna on a scalar. -/
def fillna (v : Val) (d : Val) : Val := if v.isna then d else v

/- --------------------------------------------------------------------------
   clean_hint_text
--------------------------------------------------------------------------- -/

/-- Drop one leading case-insensitive match of \s*hint\s*:\s* (re.sub, ^-anchored,
    so at most one removal per call). -/
def dropHintHead (l : List Char) : List Char :=
  let l1 := l.dropWhile isWsC
  match l1 with
  | h :: i :: n :: t :: rest =>
      if lowerC h = 'h' && lowerC i = 'i' && lowerC n = 'n' && lowerC t = 't' then
        let l2 := rest.dropWhile isWsC
        match l2 with
        | ':' :: rest2 => rest2.dropWhile isWsC
        | _ => l
      else l
  | _ => l

/-- Drop one trailing match of \s*\[[0-9A-Za-z]{3,8}\]\s*$ (re.sub).
    The $-anchored pattern matches iff the last non-whitespace character is ']'
    preceded by a maximal alphanumeric run of length 3..8 preceded by '['. -/
def dropHintTag (l : List Char) : List Char :=
  let r := l.reverse.dropWhile isWsC
  match r with
  | ']' :: rest =>
      let run := rest.takeWhile isAlnumC
      let rest2 := rest.drop run.length
      match rest2 with
      | '[' :: rest3 =>
          if 3 ≤ run.length && run.length ≤ 8 then
            (rest3.dropWhile isWsC).reverse
          else l
      | _ => l
  | _ => l

/-- clean_hint_text on an already-string value (the regex pipeline on str(h)). -/
def cleanHintStr (s : String) : String :=
  pyStrip (String.mk (dropHintTag (dropHintHead (pyStrip s).data)))

/-- clean_hint_text(h): "" on NaN/None, else strip / drop leading "hint:" /
    drop trailing bracketed 3-8 alphanumeric tag / strip. -/
def clean_hint_text (h : Val) : String :=
  if h.isna then "" else cleanHintStr h.toStr

/- --------------------------------------------------------------------------
   ensure_required_metadata (per-row field rules)
--------------------------------------------------------------------------- -/

/-- The lambda normalizing isPublic (default True). -/
def normIsPublic (v : Val) : Bool :=
  match v with
  | Val.null => true
  | Val.bool b => b
  | _ => pyLower (pyStrip v.toStr) ∈ ["true", "1", "yes", "y"]

/-- The lambda normalizing has_image (default False). -/
def normHasImage (v : Val) : Bool :=
  match v with
  | Val.null => false
  | Val.bool b => b
  | _ => pyLower (pyStrip v.toStr) ∈ ["true", "1", "yes", "y"]

def normDifficulty (v : Val) : String :=
  let s := pyLower (fillna v (Val.str "medium")).toStr
  if s ∈ ["low", "medium", "high"] then s else "medium"

/-- ensure_required_metadata, row-wise. -/
def ensure_required_metadata (r : Row) : NRow :=
  { Question := r.Question
    Options := r.Options
    Question_Type := pyLower (fillna r.Question_Type (Val.str "multiple_choice")).toStr
    has_image := normHasImage r.has_image
    CorrectOptions := r.CorrectOptions
    Explanation := r.Explanation
    Hints := clean_hint_text r.Hints
    Category := pyUpper (fillna r.Category (Val.str DEFAULT_CATEGORY_NAME)).toStr
    Collection := fillna r.Collection (Val.str DEFAULT_COLLECTION_NAME)
    Quiz := r.Quiz
    Tag := fillna r.Tag (Val.str "")
    difficulty := normDifficulty r.difficulty
    isPublic := normIsPublic r.isPublic
    Status := "draft" }

/-- Row filter applied in load_agent_input: drop rows whose Question_Type
    string contains hotspot / drag / simulation, case-insensitively. -/
def isUnsupportedType (v : Val) : Bool :=
  let l := (pyLower v.toStr).data
  containsSub l "hotspot".data || containsSub l "drag".data ||
    containsSub l "simulation".data

def filterSupported (rows : List Row) : List Row :=
  rows.filter (fun r => !isUnsupportedType r.Question_Type)

/- --------------------------------------------------------------------------
   enforce_batches
--------------------------------------------------------------------------- -/

/-- A Quiz cell counting as missing: NaN, or blank after str().strip(). -/
def badQuiz (v : Val) : Bool := v.isna || pyStrip v.toStr == ""

def batchLabel (i bs : Nat) : String := "Batch " ++ pyNatStr (i / bs + 1)

def enforceGo (bs : Nat) : Nat → List NRow → List NRow
  | _, [] => []
  | i, r :: rest =>
      (if badQuiz r.Quiz then { r with Quiz := Val.str (batchLabel i bs) } else r)
        :: enforceGo bs (i + 1) rest

/-- enforce_batches: if any Quiz entry is missing/blank, rewrite exactly the
    missing/blank entries to "Batch (i // batch_size + 1)". -/
def enforce_batches (rows : List NRow) (bs : Nat) : List NRow :=
  if rows.any (fun r => badQuiz r.Quiz) then enforceGo bs 0 rows else rows

/-- The processed table handed to the builders: column reconciliation is
    external to this core (arbitrary headers -> the 14 columns of Row);
    then unsupported-type filtering, field normalization, batch fallback. -/
def processedTable (rows : List Row) : List NRow :=
  enforce_batches ((filterSupported rows).map ensure_required_metadata) 45

/- --------------------------------------------------------------------------
   determine_type
--------------------------------------------------------------------------- -/

def recognizedTypes : List String :=
  ["multiple_choice", "multiple answer", "multiple_answer", "true_false",
   "text_input", "short_answer", "image_based"]

/-- len(options) == 2 and all(o.lower() in {"true","false","yes","no"} for o in options). -/
def isTFOptions (options : List String) : Bool :=
  options.length = 2
    && options.all (fun o => pyLower o ∈ ["true", "false", "yes", "no"])

def determine_type (qtype : String) (options : List String) : String :=
  let q := pyLower (pyStrip qtype)
  if q ∈ recognizedTypes then
    (if q = "multiple answer" then "multiple_answer" else q)
  else if isTFOptions options then "true_false"
  else if options ≠ [] then "multiple_choice"
  else "text_input"

/- --------------------------------------------------------------------------
   Key generation: slugify / make_key
--------------------------------------------------------------------------- -/

/-- slugify: replace runs of non-alphanumerics by spaces, strip, split,
    uppercase each token, join with "-".  Equivalently: the maximal
    alphanumeric runs of the text, uppercased and dash-joined. -/
def slugify (v : Val) : String :=
  String.intercalate "-"
    ((runsOf isAlnumC v.toStr.data).map (fun t => String.mk (t.map upperC)))

/-- make_key(prefix, base) = f"{prefix}-{slugify(base)}" if base (truthy) else prefix. -/
def make_key (pre : String) (base : Val) : String :=
  if pyTruthy base then pre ++ "-" ++ slugify base else pre

/-- str(name).strip().title() if name else "" — Python .title() on ASCII:
    a letter is uppercased when it starts a letter run, lowercased otherwise. -/
def titleAux : List Char → Bool → List Char
  | [], _ => []
  | c :: rest, newWord =>
      if isLowerAZ c || isUpperAZ c then
        (if newWord then upperC c else lowerC c) :: titleAux rest false
      else c :: titleAux rest true

def sentence_case_name (name : String) : String :=
  if name = "" then "" else String.mk (titleAux (pyStrip name).data true)

def learning_outcome_for (collection_name : String) : String :=
  let name := pyStrip collection_name
  if name = "Microsoft Azure" then
    "Develop administrator-level skills in Azure identity, governance, storage, compute, networking, and monitoring aligned to AZ-104 objectives."
  else if name = "Microsoft 365" then
    "Build proficiency in Microsoft 365 services, security, compliance, and identity to manage modern workplace scenarios."
  else if name = "Azure Data" then
    "Strengthen data engineering and analytics skills on Azure services including storage, compute, security, and monitoring."
  else if name ≠ "" then
    "Build proficiency in " ++ name ++ " aligned to relevant certification objectives."
  else ""

/- --------------------------------------------------------------------------
   Index scanning helpers (fuel-structural, so they reduce in the kernel).
--------------------------------------------------------------------------- -/

/-- First index ≥ i whose character is not whitespace (or an out-of-range
    index).  Fuel l.length always suffices; see skipWs lemmas below. -/
def skipWsF (l : List Char) : Nat → Nat → Nat
  | 0, i => i
  | f + 1, i =>
      match l.get? i with
      | some c => if isWsC c then skipWsF l f (i + 1) else i
      | none => i

def skipWs (l : List Char) (i : Nat) : Nat := skipWsF l l.length i

/-- Letter-paren test at an index: [A-Ja-j] at p followed by ')'. -/
def lpAt (l : List Char) (p : Nat) : Option Char :=
  match l.get? p, l.get? (p + 1) with
  | some a, some b => if isAJ a && b = ')' then some a else none
  | _, _ => none

/- --------------------------------------------------------------------------
   multiple_answer extraction:
   re.findall(r"(?:^|;\s*)([A-Ja-j])\)", s)
--------------------------------------------------------------------------- -/

/-- One match attempt of (?:^|;\s*)([A-Ja-j])\) at scan position i:
    returns the captured letter and the index just past the match.  At
    position 0 the engine tries the ^ alternative first, then the ;\s*
    alternative; elsewhere only the latter.  The greedy \s* can only stop at
    the first non-whitespace character, so it is exactly skipWs. -/
def maMatchAt (l : List Char) (i : Nat) : Option (Char × Nat) :=
  if i = 0 then
    match lpAt l 0 with
    | some a => some (a, 2)
    | none =>
        if l.get? 0 = some ';' then
          (lpAt l (skipWs l 1)).map (fun a => (a, skipWs l 1 + 2))
        else none
  else
    if l.get? i = some ';' then
      (lpAt l (skipWs l (i + 1))).map (fun a => (a, skipWs l (i + 1) + 2))
    else none

/-- The findall scan: try a match at each position left to right; on a match
    collect the captured letter and resume at the match end.  Fuel
    l.length + 1 - i always suffices. -/
def maScanF (l : List Char) : Nat → Nat → List Char
  | 0, _ => []
  | f + 1, i =>
      if i < l.length then
        match maMatchAt l i with
        | some (a, j) => a :: maScanF l f j
        | none => maScanF l f (i + 1)
      else []

def maScan (l : List Char) : List Char := maScanF l (l.length + 1) 0

/-- The multiple_answer branch of correct-letter extraction:
    empty set on NaN / blank text, else the findall letters of the stripped
    text, uppercased ({l.upper() for l in letters}). -/
def maLetters (correct : Val) : List Char :=
  if correct.isna || pyStrip correct.toStr == "" then []
  else (maScan (pyStrip correct.toStr).data).map upperC

/-- The multiple_choice branch: re.search(r"^([A-Ja-j])\)", s.strip()),
    first letter marker at the very start, uppercased. -/
def mcLetters (correct : Val) : List Char :=
  if correct.isna || pyStrip correct.toStr == "" then []
  else
    match (pyStrip correct.toStr).data with
    | a :: ')' :: _ => if isAJ a then [upperC a] else []
    | _ => []

/-- extract_correct_letters (all other types):
    re.findall(r"\b([A-Ja-j])\b", str(correct)) — every standalone A-J letter
    (word boundary on both sides), uppercased.  Single-character matches make
    the left-to-right scan collect exactly the indices satisfying the
    boundary predicate. -/
def standaloneAt (l : List Char) (i : Nat) : Option Char :=
  match l.get? i with
  | some a =>
      if isAJ a
        && (match i, l.get? (i - 1) with
            | 0, _ => true
            | _ + 1, some c => !isWordC c
            | _ + 1, none => true)
        && (match l.get? (i + 1) with
            | some c => !isWordC c
            | none => true)
      then some a else none
  | none => none

def extract_correct_letters (correct : Val) : List Char :=
  if correct.isna || pyStrip correct.toStr == "" then []
  else
    ((List.range correct.toStr.data.length).filterMap
      (standaloneAt correct.toStr.data)).map upperC

/- --------------------------------------------------------------------------
   split_options
--------------------------------------------------------------------------- -/

/-- A delimiter match of \s*[;|]\s* starting at scan position i
    (withLook: additionally require the lookahead (?=[A-Ja-j]\))).
    Returns the index just past the match (lookahead not consumed).
    Greedy \s* runs can only stop at the following non-whitespace
    character, so the matched region is fully determined. -/
def delimAt (l : List Char) (i : Nat) (withLook : Bool) : Option Nat :=
  let j := skipWs l i
  match l.get? j with
  | some c =>
      if c = ';' || c = '|' then
        let e := skipWs l (j + 1)
        if withLook then (lpAt l e).map (fun _ => e) else some e
      else none
  | none => none

/-- re.split scan: cut a piece at each delimiter match, scanning left to
    right.  Fuel l.length + 1 - i suffices. -/
def splitScanF (l : List Char) (withLook : Bool) :
    Nat → Nat → List Char → List (List Char)
  | 0, _, cur => [cur.reverse]
  | f + 1, i, cur =>
      if h : i < l.length then
        match delimAt l i withLook with
        | some e => cur.reverse :: splitScanF l withLook f e []
        | none => splitScanF l withLook f (i + 1) (l.get ⟨i, h⟩ :: cur)
      else [cur.reverse]

def splitScan (l : List Char) (withLook : Bool) : List (List Char) :=
  splitScanF l withLook (l.length + 1) 0 []

/-- Strip a leading [A-Ja-j]) marker and following whitespace (re.sub ^-anchored). -/
def dropLetterMarker (p : List Char) : List Char :=
  match p with
  | a :: ')' :: rest => if isAJ a then rest.dropWhile isWsC else p
  | _ => p

/-- Python str.strip(";"): remove ';' characters from both ends. -/
def stripSemis (l : List Char) : List Char :=
  ((l.dropWhile (· = ';')).reverse.dropWhile (· = ';')).reverse

/-- Does the text contain a letter marker \b[A-Ja-j]\)? -/
def hasLetterMarker (l : List Char) : Bool :=
  (List.range l.length).any fun i =>
    match lpAt l i with
    | some _ =>
        (match i, l.get? (i - 1) with
         | 0, _ => true
         | _ + 1, some c => !isWordC c
         | _ + 1, none => true)
    | none => false

/-- split_options: [] on NaN/blank; lettered texts split on ;/| delimiters
    followed by the next letter marker, with markers stripped; otherwise a
    plain ;/| split.  Blank fragments are dropped. -/
def split_options (text : Val) : List String :=
  if text.isna || pyStrip text.toStr == "" then []
  else
    let s := (pyStrip text.toStr).data
    if hasLetterMarker s then
      ((splitScan s true).filter (fun p => pyStrip (String.mk p) ≠ "")).filterMap
        (fun p =>
          let c := stripSemis (pyStrip (String.mk (dropLetterMarker p))).data
          if c = [] then none else some (String.mk c))
    else
      (splitScan s false).filterMap
        (fun p =>
          let c := (pyStrip (String.mk p))
          if c = "" then none else some c)

/- --------------------------------------------------------------------------
   Output record types (one per output sheet, pre-coercion).
   The Python "Type" column is called QType here ("Type" is a Lean keyword).
--------------------------------------------------------------------------- -/

structure CatRec where
  CategoryKey : String
  Name : String
  Description : String
deriving DecidableEq, Repr

structure ColRec where
  CollectionKey : String
  Name : String
  Description : String
  LearningOutcome : String
  IsPublic : Bool
  CategoryKey : String
  CoverImage : String
deriving DecidableEq, Repr

structure QuizRec where
  QuizKey : String
  CollectionKey : String
  Title : String
  Description : String
  PassMark : Nat
  Difficulty : String
  isPublic : Bool
  Status : String
  Tags : String
deriving DecidableEq, Repr

structure QRec where
  QuestionKey : String
  QuizKey : String
  QType : String
  Text : String
  Points : Nat
  Explanation : Val
  Hints : String
  MediaURL : String
  OrderIndex : Nat
  ThresholdKeywords : String
deriving DecidableEq, Repr

structure ORec where
  OptionKey : String
  QuestionKey : String
  Text : String
  IsCorrect : Bool
  OrderIndex : Nat
  CorrectOrder : String
  Meta : String
deriving DecidableEq, Repr

/- --------------------------------------------------------------------------
   build_key_maps
--------------------------------------------------------------------------- -/

/-- cats = {str(x).strip(): make_key("CAT", x) for x in df["Category"].fillna(...).unique()} -/
def build_cat_map (df : List NRow) : List (String × String) :=
  dictOf ((pyUnique (df.map (fun r => fillna (Val.str r.Category) (Val.str DEFAULT_CATEGORY_NAME)))).map
    (fun x => (pyStrip x.toStr, make_key "CAT" x)))

def build_col_map (df : List NRow) : List (String × String) :=
  dictOf ((pyUnique (df.map (fun r => fillna r.Collection (Val.str DEFAULT_COLLECTION_NAME)))).map
    (fun x => (pyStrip x.toStr, make_key "COL" x)))

def build_quiz_map (df : List NRow) : List (String × String) :=
  dictOf ((pyUnique (df.map (fun r => fillna r.Quiz (Val.str "")))).map
    (fun x =>
      (pyStrip x.toStr,
       make_key "QUIZ" (if pyStrip x.toStr ≠ "" then x else Val.str "BATCH"))))

/-- Quiz-key lookup used by build_questions_and_options:
    quiz_map.get(title, make_key("QUIZ", title)).  build_quizzes_df indexes
    the dict directly (quiz_map[title.strip()]); after enforce_batches the
    key is always present, so the same total lookup models both call sites. -/
def quizKeyLookup (qm : List (String × String)) (title : String) : String :=
  match dGet qm title with
  | some v => v
  | none => make_key "QUIZ" (Val.str title)

/-- list(m.values())[0]: the run's first-discovered key ("" only on an empty
    table, where the original raises IndexError; theorems assume nonempty). -/
def firstVal (m : List (String × String)) : String :=
  match m with
  | [] => ""
  | p :: _ => p.2

/- --------------------------------------------------------------------------
   build_categories_df / build_collections_df
--------------------------------------------------------------------------- -/

def build_categories_df (cat_map : List (String × String)) : List CatRec :=
  cat_map.map (fun p =>
    { CategoryKey := p.2
      Name := p.1
      Description := sentence_case_name p.1 ++ " certification" })

def build_collections_df (col_map : List (String × String))
    (default_category_key : String) : List ColRec :=
  col_map.map (fun p =>
    { CollectionKey := p.2
      Name := p.1
      Description := p.1 ++ "."
      LearningOutcome := learning_outcome_for p.1
      IsPublic := true
      CategoryKey := default_category_key
      CoverImage := "" })

/- --------------------------------------------------------------------------
   MediaURL merge (build_questions_and_options, lines 283-295)
--------------------------------------------------------------------------- -/

/-- is_flagged = str(has_img).lower() in {'true','1'} where has_img is the
    normalized boolean has_image column value. -/
def isFlagged (has_image : Bool) : Bool :=
  pyLower (Val.bool has_image).toStr ∈ ["true", "1"]

/-- The lookup-then-flag precedence: URL from the map if the exact question
    text is a key, else the sentinel "1" if flagged, else "". -/
def mediaVal (lookup : List (String × String)) (q_text : String)
    (has_image : Bool) : String :=
  match dGet lookup q_text with
  | some url => url
  | none => if isFlagged has_image then "1" else ""

/- --------------------------------------------------------------------------
   build_questions_and_options
--------------------------------------------------------------------------- -/

/-- The per-quiz ordinal counters dict (quiz key -> running count).
    The Python dict is only read and written pointwise, so a function
    with default 0 is a faithful model of setdefault(k, 0) / increment. -/
def Counters : Type := String → Nat

def cGet (m : Counters) (k : String) : Nat := m k

def cBump (m : Counters) (k : String) : Counters :=
  fun k' => if k' = k then m k + 1 else m k'

def qkeyStr (quiz_key : String) (idx : Nat) : String :=
  String.mk ('Q' :: '-' :: quiz_key.data ++ '-' :: pad3 idx)

def okeyStr (qkey : String) (i : Nat) : String :=
  String.mk ('O' :: 'P' :: 'T' :: '-' :: qkey.data ++ '-' :: pad2 i)

/-- chr(ord("A") + i - 1): the 1-based position letter of an option. -/
def posLetter (i : Nat) : Char := Char.ofNat (65 + (i - 1))

/-- The resolved-type-dependent correct-letter set for a row. -/
def correctLetters (qtype : String) (correct : Val) : List Char :=
  if qtype = "multiple_choice" then mcLetters correct
  else if qtype = "multiple_answer" then maLetters correct
  else extract_correct_letters correct

/-- The option rows for one question from its parsed option list
    (enumerate(options, start=1)). -/
def optRowsGo (qkey : String) (correct : List Char) :
    Nat → List String → List ORec
  | _, [] => []
  | i, o :: rest =>
      { OptionKey := okeyStr qkey i
        QuestionKey := qkey
        Text := o
        IsCorrect := correct.contains (posLetter i)
        OrderIndex := i
        CorrectOrder := ""
        Meta := "" } :: optRowsGo qkey correct (i + 1) rest

/-- Synthetic True/False pair emitted when a true_false row has no options. -/
def tfRows (qkey : String) (correct : List Char) : List ORec :=
  [{ OptionKey := okeyStr qkey 1, QuestionKey := qkey, Text := "True"
     IsCorrect := correct.contains 'A', OrderIndex := 1, CorrectOrder := "", Meta := "" },
   { OptionKey := okeyStr qkey 2, QuestionKey := qkey, Text := "False"
     IsCorrect := correct.contains 'B', OrderIndex := 2, CorrectOrder := "", Meta := "" }]

/-- All option rows of one question row. -/
def optBlock (qkey qtype : String) (options : List String)
    (correct : List Char) : List ORec :=
  optRowsGo qkey correct 1 options ++
    (if options = [] && qtype = "true_false" then tfRows qkey correct else [])

/-- The question record of one input row. -/
def mkQRec (lookup : List (String × String))
    (r : NRow) (quiz_key : String) (idx : Nat) : QRec :=
  let q_text := r.Question.toStr
  let options := split_options r.Options
  let qtype := determine_type r.Question_Type options
  { QuestionKey := qkeyStr quiz_key idx
    QuizKey := quiz_key
    QType := qtype
    Text := q_text
    Points := DEFAULT_POINTS
    Explanation := r.Explanation
    Hints := cleanHintStr r.Hints
    MediaURL := mediaVal lookup q_text r.has_image
    OrderIndex := idx
    ThresholdKeywords := "" }

/-- build_questions_and_options: iterate the rows threading the per-quiz
    counters; each row emits one question record and its option block. -/
def buildQO (qm lookup : List (String × String)) :
    List NRow → Counters → List QRec × List ORec
  | [], _ => ([], [])
  | r :: rest, counters =>
      let quiz_title := pyStrip r.Quiz.toStr
      let quiz_key := quizKeyLookup qm quiz_title
      let idx := cGet counters quiz_key + 1
      let counters' := cBump counters quiz_key
      let qkey := qkeyStr quiz_key idx
      let options := split_options r.Options
      let qtype := determine_type r.Question_Type options
      let correct := correctLetters qtype r.CorrectOptions
      let (qs, os) := buildQO qm lookup rest counters'
      (mkQRec lookup r quiz_key idx :: qs,
       optBlock qkey qtype options correct ++ os)

def build_questions_and_options (df : List NRow)
    (qm lookup : List (String × String)) : List QRec × List ORec :=
  buildQO qm lookup df (fun _ => 0)

/- --------------------------------------------------------------------------
   Tag inference engine
--------------------------------------------------------------------------- -/

/-- Word boundary \b on the left of index i (start of string or non-\w). -/
def bBefore (l : List Char) (i : Nat) : Bool :=
  match i, l.get? (i - 1) with
  | 0, _ => true
  | _ + 1, some c => !isWordC c
  | _ + 1, none => true

/-- Word boundary \b at index i on the right (end of string or non-\w). -/
def bAfter (l : List Char) (i : Nat) : Bool :=
  match l.get? i with
  | some c => !isWordC c
  | none => true

/-- \b w \b occurs at index i (w a literal, possibly with internal spaces). -/
def wordBoundedAt (l : List Char) (i : Nat) (w : List Char) : Bool :=
  w.isPrefixOf (l.drop i) && bBefore l i && bAfter l (i + w.length)

/-- re.search(\b w \b, s) as a Bool. -/
def hasWord (s w : String) : Bool :=
  (List.range (s.data.length + 1)).any fun i => wordBoundedAt s.data i w.data

/-- re.search for \b(azure\s*ad|entra)\b. -/
def azureAdHit (s : String) : Bool :=
  ((List.range (s.data.length + 1)).any fun i =>
    let l := s.data
    ("azure".data.isPrefixOf (l.drop i) && bBefore l i &&
      (let j := skipWs l (i + 5)
       "ad".data.isPrefixOf (l.drop j) && bAfter l (j + 2))))
  || hasWord s "entra"

/-- KEYWORD_TAG_MAP: each regex embedded as the predicate it decides
    (alternations of word-bounded literals; [s]?/s? as two literals). -/
def KEYWORD_TAG_MAP : List ((String → Bool) × String) :=
  [(azureAdHit, "identity"),
   (fun s => hasWord s "conditional access", "conditional-access"),
   (fun s => hasWord s "mfa" || hasWord s "multifactor", "mfa"),
   (fun s => hasWord s "rbac", "rbac"),
   (fun s => hasWord s "key vault", "key-vault"),
   (fun s => hasWord s "managed identity", "managed-identity"),
   (fun s => hasWord s "policy", "policy"),
   (fun s => hasWord s "blueprint" || hasWord s "blueprints", "blueprints"),
   (fun s => hasWord s "blob" || hasWord s "storage account", "storage"),
   (fun s => hasWord s "cosmos db", "cosmosdb"),
   (fun s => hasWord s "sql managed instance" || hasWord s "sql database", "sql"),
   (fun s => hasWord s "virtual machine" || hasWord s "vm" || hasWord s "scale set", "compute"),
   (fun s => hasWord s "aks" || hasWord s "kubernetes", "containers"),
   (fun s => hasWord s "app service", "app-service"),
   (fun s => hasWord s "vnet" || hasWord s "virtual network" || hasWord s "subnet"
      || hasWord s "nsg" || hasWord s "peering", "networking"),
   (fun s => hasWord s "application gateway" || hasWord s "appgw", "application-gateway"),
   (fun s => hasWord s "bastion", "bastion"),
   (fun s => hasWord s "defender for cloud" || hasWord s "security center", "defender"),
   (fun s => hasWord s "monitor" || hasWord s "log analytics", "monitoring"),
   (fun s => hasWord s "sentinel", "sentinel"),
   (fun s => hasWord s "backup" || hasWord s "recovery services vault"
      || hasWord s "asr", "backup"),
   (fun s => hasWord s "function" || hasWord s "functions", "functions"),
   (fun s => hasWord s "event hub" || hasWord s "event hubs", "event-hubs"),
   (fun s => hasWord s "service bus", "service-bus")]

/-- ROLE_HINT_WORDS (a Python set literal; its iteration order is a CPython
    implementation detail, modelled here in literal order — the theorems
    proved about tag inference do not depend on this order). -/
def ROLE_HINT_WORDS : List String :=
  ["administrator", "admin", "developer", "security", "architect", "engineer",
   "data", "ai", "devops", "fundamentals", "associate", "expert"]

def lettersRunAt (l : List Char) (i n : Nat) : Bool :=
  (List.range n).all fun t =>
    match l.get? (i + t) with
    | some c => isLowerAZ c
    | none => false

def digitsRunAt (l : List Char) (i n : Nat) : Bool :=
  (List.range n).all fun t =>
    match l.get? (i + t) with
    | some c => isDigitC c
    | none => false

def examTry (l : List Char) (i nl nd : Nat) : Bool :=
  lettersRunAt l i nl && l.get? (i + nl) = some '-'
    && digitsRunAt l (i + nl + 1) nd && bAfter l (i + nl + 1 + nd)

/-- One attempt of \b([a-z]{1,3}-\d{2,4})\b at index i: greedy lengths
    tried longest-first, exactly as the backtracking engine does. -/
def examAt (l : List Char) (i : Nat) : Option (List Char) :=
  if bBefore l i then
    [(3,4),(3,3),(3,2),(2,4),(2,3),(2,2),(1,4),(1,3),(1,2)].findSome? fun p =>
      if examTry l i p.1 p.2 then some ((l.drop i).take (p.1 + 1 + p.2)) else none
  else none

/-- re.search of the exam-code pattern: leftmost match's captured group. -/
def examCode (s : String) : Option String :=
  ((List.range s.data.length).findSome? (examAt s.data)).map String.mk

def isLowerDigit (c : Char) : Bool := isLowerAZ c || isDigitC c

/-- tags_from_collection: the [a-z0-9] tokens of the lowercased name. -/
def tags_from_collection (collection_name : String) : List String :=
  if collection_name = "" then []
  else (runsOf isLowerDigit (pyLower collection_name).data).map String.mk

/-- tags_from_quiz_title: exam code, role-hint words, azure/microsoft tokens,
    deduplicated keeping first occurrences. -/
def tags_from_quiz_title (title : String) : List String :=
  if title = "" then []
  else
    let s := pyLower title
    let t1 := match examCode s with | some m => [m] | none => []
    let t2 := ROLE_HINT_WORDS.filter (fun w => hasWord s w)
    let t3 := ((runsOf isLowerDigit s.data).map String.mk).filter
      (fun t => t = "azure" || t = "microsoft")
    pyUnique (t1 ++ t2 ++ t3)

/-- The keyword frequency dict over the per-row question+explanation texts. -/
def scoreContent (content : List String) : List (String × Nat) :=
  content.foldl
    (fun score txt =>
      KEYWORD_TAG_MAP.foldl
        (fun sc pt =>
          if pt.1 txt then dictInsert sc pt.2 ((dGet sc pt.2).getD 0 + 1) else sc)
        score)
    []

def strLtB : List Char → List Char → Bool
  | [], [] => false
  | [], _ :: _ => true
  | _ :: _, [] => false
  | a :: as, b :: bs =>
      if a.toNat < b.toNat then true
      else if b.toNat < a.toNat then false
      else strLtB as bs

/-- sorted(..., key=lambda kv: (-kv[1], kv[0])): count descending then tag
    ascending; tags are distinct so the order is a total one and any correct
    sort computes it. -/
def pairLe (a b : String × Nat) : Bool :=
  b.2 < a.2 || (a.2 == b.2 && (strLtB a.1.data b.1.data || a.1 == b.1))

def insSorted (x : String × Nat) : List (String × Nat) → List (String × Nat)
  | [] => [x]
  | y :: r => if pairLe x y then x :: y :: r else y :: insSorted x r

def sortScore (l : List (String × Nat)) : List (String × Nat) :=
  l.foldr insSorted []

/-- re.sub(r"[^a-z0-9\-]+", "", t.lower()).strip("-"). -/
def normTag (t : String) : String :=
  String.mk
    (((((pyLower t).data.filter (fun c => isLowerDigit c || c = '-')).dropWhile
        (· = '-')).reverse.dropWhile (· = '-')).reverse)

/-- The final normalize / de-duplicate / truncate loop of infer_tags_for_quiz:
    the loop breaks as soon as the accumulator reaches max_tags entries. -/
def dedupTake (maxTags : Nat) : List String → List String → List String
  | [], acc => acc
  | t :: ts, acc =>
      let t' := normTag t
      let acc' := if t' ≠ "" && !acc.contains t' then acc ++ [t'] else acc
      if maxTags ≤ acc'.length then acc' else dedupTake maxTags ts acc'

/-- The concatenated tag sources in priority order: collection tokens, then
    quiz-title tags, then frequency-ranked keyword tags. -/
def tagSources (quiz_df : List NRow) (collection_name quiz_title : String) :
    List String :=
  tags_from_collection collection_name ++ tags_from_quiz_title quiz_title ++
    (sortScore (scoreContent (quiz_df.map (fun r =>
      pyLower ((fillna r.Question (Val.str "")).toStr ++ " " ++
        (fillna r.Explanation (Val.str "")).toStr))))).map (fun p => p.1)

def infer_tags_for_quiz (quiz_df : List NRow)
    (collection_name quiz_title : String) (max_tags : Nat) : String :=
  String.intercalate ", " (dedupTake max_tags (tagSources quiz_df collection_name quiz_title) [])

/- --------------------------------------------------------------------------
   build_quizzes_df
--------------------------------------------------------------------------- -/

/-- The modal difficulty: value_counts puts a maximal-count value first;
    if more than one value attains the maximal count the result is "medium". -/
def quizDifficulty (diffs : List String) : String :=
  let vals := pyUnique diffs
  let maxc := (vals.map (fun v => diffs.count v)).foldl max 0
  match vals.filter (fun v => diffs.count v = maxc) with
  | [t] => t
  | _ => "medium"

/-- sub["Collection"].iloc[0] (sub is nonempty for every title by
    construction; [] is unreachable).  Non-string collection cells are
    rendered with str() where the original would raise inside
    tags_from_collection — see the module comment. -/
def firstCollection (sub : List NRow) : Val :=
  match sub with
  | [] => Val.str DEFAULT_COLLECTION_NAME
  | r :: _ => r.Collection

def build_quizzes_df (df : List NRow) (qm : List (String × String))
    (collection_key : String) : List QuizRec :=
  (pyUnique (df.map (fun r => r.Quiz.toStr))).map (fun title =>
    let sub := df.filter (fun r => r.Quiz.toStr == title)
    let collection_name := firstCollection sub
    { QuizKey := quizKeyLookup qm (pyStrip title)
      CollectionKey := collection_key
      Title := title
      Description := collection_name.toStr
      PassMark := DEFAULT_PASSMARK
      Difficulty := quizDifficulty (sub.map (fun r => r.difficulty))
      isPublic := true
      Status := "draft"
      Tags := infer_tags_for_quiz sub collection_name.toStr title 8 })

/- --------------------------------------------------------------------------
   The whole pipeline (main, steps 1 and 3; file I/O is external).
--------------------------------------------------------------------------- -/

structure PipeOut where
  categories : List CatRec
  collections : List ColRec
  quizzes : List QuizRec
  questions : List QRec
  options : List ORec
deriving DecidableEq, Repr

def runPipeline (rows : List Row) (lookup : List (String × String)) : PipeOut :=
  let df := processedTable rows
  let cat_map := build_cat_map df
  let col_map := build_col_map df
  let quiz_map := build_quiz_map df
  let qo := build_questions_and_options df quiz_map lookup
  { categories := build_categories_df cat_map
    collections := build_collections_df col_map (firstVal cat_map)
    quizzes := build_quizzes_df df quiz_map (firstVal col_map)
    questions := qo.1
    options := qo.2 }

/- --------------------------------------------------------------------------
   Claim-side statements (predicates transcribing claims, for settling them).
--------------------------------------------------------------------------- -/

/-- The quiz key assigned to a row by build_questions_and_options. -/
def rowQuizKey (qm : List (String × String)) (r : NRow) : String :=
  quizKeyLookup qm (pyStrip r.Quiz.toStr)

/-- Claim C1 as stated: every Question's QuizKey matches exactly one Quiz
    record, that Quiz's CollectionKey exactly one Collection record, and that
    Collection's CategoryKey exactly one Category record. -/
def refClosureExact (out : PipeOut) : Bool :=
  out.questions.all (fun q =>
    let zs := out.quizzes.filter (fun z => z.QuizKey == q.QuizKey)
    zs.length == 1 && zs.all (fun z =>
      let cs := out.collections.filter (fun c => c.CollectionKey == z.CollectionKey)
      cs.length == 1 && cs.all (fun c =>
        (out.categories.filter (fun k => k.CategoryKey == c.CategoryKey)).length == 1)))

/-- Claim C3's extraction rule as stated: letters preceded by start-of-string
    or by the exact two-character separator "; " and followed by ")". -/
def claimedMALetters (s : String) : List Char :=
  (List.range s.data.length).filterMap (fun i =>
    match s.data.get? i with
    | some a =>
        if isAJ a && s.data.get? (i + 1) == some ')'
            && (i == 0 ||
                (2 ≤ i && s.data.get? (i - 2) == some ';'
                  && s.data.get? (i - 1) == some ' '))
        then some (upperC a) else none
    | none => none)

/-- Position p is preceded by start-of-string or by ';' followed by a
    possibly-empty run of whitespace (the amended separator rule). -/
def sepToPos (l : List Char) (p : Nat) : Prop :=
  p = 0 ∨ ∃ j, j < p ∧ l.get? j = some ';' ∧
    ∀ k, j < k → k < p → ∃ c, l.get? k = some c ∧ isWsC c

/-- The amended declarative extraction: u is an extracted letter iff some
    position holds an [A-Ja-j] letter with ')' right after it and the
    amended separator rule (or string start) right before it. -/
def maSpecMem (l : List Char) (u : Char) : Prop :=
  ∃ p a, l.get? p = some a ∧ isAJ a ∧ l.get? (p + 1) = some ')' ∧
    u = upperC a ∧ sepToPos l p

/-- Claim C5's has_image rule as stated (string forms matched against
    {"true","1"} only). -/
def hasImageClaim (v : Val) : Bool :=
  match v with
  | Val.null => false
  | Val.bool b => b
  | _ => pyLower (pyStrip v.toStr) ∈ ["true", "1"]

/-- The amended declarative extraction relative to a scan start i: as
    maSpecMem, but the separator semicolon must lie at a position ≥ i (for
    the start-of-string alternative the scan must still be at position 0).
    maSpecFrom l 0 is equivalent to maSpecMem l. -/
def maSpecFrom (l : List Char) (i : Nat) (u : Char) : Prop :=
  ∃ p a, l.get? p = some a ∧ isAJ a ∧ l.get? (p + 1) = some ')' ∧
    u = upperC a ∧
    ((p = 0 ∧ i = 0) ∨ ∃ j, i ≤ j ∧ j < p ∧ l.get? j = some ';' ∧
      ∀ k, j < k → k < p → ∃ c, l.get? k = some c ∧ isWsC c)

/-- A convenient all-NaN input row for concrete tables. -/
def baseRow : Row :=
  { Question := Val.null, Options := Val.null, Question_Type := Val.null,
    has_image := Val.null, CorrectOptions := Val.null, Explanation := Val.null,
    Hints := Val.null, Category := Val.null, Collection := Val.null,
    Quiz := Val.null, Tag := Val.null, difficulty := Val.null,
    isPublic := Val.null, Status := Val.null }

/-- Erase the isPublic column of a raw row (for the non-interference claim:
    two tables agree after scrubRow iff they differ only in isPublic). -/
def scrubRow (r : Row) : Row := { r with isPublic := Val.null }

/-- Erase the normalized isPublic column. -/
def scrubNRow (r : NRow) : NRow := { r with isPublic := true }

/- ==========================================================================
   Lemma layer
========================================================================== -/

theorem pyUnique_foldl_mem [BEq α] [LawfulBEq α] (l acc : List α) (a : α) :
    a ∈ l.foldl (fun acc x => if acc.contains x then acc else acc ++ [x]) acc ↔
      a ∈ acc ∨ a ∈ l := by
  induction l generalizing acc with
  | nil => simp
  | cons x xs ih =>
      simp only [List.foldl_cons]
      by_cases h : acc.contains x
      · rw [if_pos h, ih]
        have hx : x ∈ acc := by simpa using h
        constructor
        · rintro (h1 | h1)
          · exact Or.inl h1
          · exact Or.inr (List.mem_cons_of_mem _ h1)
        · rintro (h1 | h1)
          · exact Or.inl h1
          · rcases List.mem_cons.mp h1 with rfl | h1
            · exact Or.inl hx
            · exact Or.inr h1
      · rw [if_neg h, ih]
        have hsing : a ∈ acc ++ [x] ↔ a ∈ acc ∨ a = x := by simp
        rw [hsing, or_assoc, List.mem_cons]

theorem mem_pyUnique [BEq α] [LawfulBEq α] (l : List α) (a : α) :
    a ∈ pyUnique l ↔ a ∈ l := by
  unfold pyUnique
  rw [pyUnique_foldl_mem]
  simp

theorem pyUnique_ne_nil [BEq α] [LawfulBEq α] (l : List α) (h : l ≠ []) :
    pyUnique l ≠ [] := by
  rcases l with _ | ⟨x, xs⟩
  · exact absurd rfl h
  · intro hu
    have : x ∈ pyUnique (x :: xs) := (mem_pyUnique _ _).mpr (List.mem_cons_self _ _)
    rw [hu] at this
    exact List.not_mem_nil _ this

theorem dictInsert_ne_nil (m : List (String × α)) (k : String) (v : α) :
    dictInsert m k v ≠ [] := by
  unfold dictInsert
  split
  · rcases m with _ | ⟨p, ps⟩
    · simp_all
    · simp
  · simp

theorem dictOf_foldl_ne_nil (ps : List (String × α)) (m : List (String × α))
    (h : m ≠ []) : ps.foldl (fun m p => dictInsert m p.1 p.2) m ≠ [] := by
  induction ps generalizing m with
  | nil => exact h
  | cons p ps ih => exact ih _ (dictInsert_ne_nil _ _ _)

theorem dictOf_ne_nil (p : String × α) (ps : List (String × α)) :
    dictOf (p :: ps) ≠ [] := by
  unfold dictOf
  simp only [List.foldl_cons]
  exact dictOf_foldl_ne_nil _ _ (dictInsert_ne_nil [] p.1 p.2)

theorem firstVal_mem (m : List (String × String)) (h : m ≠ []) :
    ∃ p, p ∈ m ∧ p.2 = firstVal m := by
  rcases m with _ | ⟨p, ps⟩
  · exact absurd rfl h
  · exact ⟨p, List.mem_cons_self _ _, rfl⟩

/- --------------------------------------------------------------------------
   C5 : has_image normalization
--------------------------------------------------------------------------- -/

/-- C5 (counterexample): the string "yes" normalizes to true in the code,
    while the claimed match set {"true","1"} classifies it as false. -/
theorem c5_counterexample :
    normHasImage (Val.str "yes") = true ∧ hasImageClaim (Val.str "yes") = false := by
  decide

/-- C5 (amended): has_image normalization — null defaults to false, booleans
    pass through, and any other value normalizes to true iff its lowercased,
    stripped string form is in {"true", "1", "yes", "y"}. -/
theorem c5_hasimage_norm :
    normHasImage Val.null = false ∧
    (∀ b, normHasImage (Val.bool b) = b) ∧
    ∀ v : Val, v.isna = false → (∀ b, v ≠ Val.bool b) →
      (normHasImage v = true ↔ pyLower (pyStrip v.toStr) ∈ ["true", "1", "yes", "y"]) := by
  refine ⟨rfl, fun b => by cases b <;> rfl, fun v hna hnb => ?_⟩
  cases v with
  | null => simp [Val.isna] at hna
  | bool b => exact absurd rfl (hnb b)
  | int n => simp [normHasImage]
  | str s => simp [normHasImage]

/-- C5 witness: the amended rule applied at the concrete value "yes". -/
theorem c5_hasimage_witness :
    normHasImage (Val.str "yes") = true ↔
      pyLower (pyStrip (Val.str "yes").toStr) ∈ ["true", "1", "yes", "y"] :=
  c5_hasimage_norm.2.2 (Val.str "yes") rfl (fun _ h => Val.noConfusion h)

/- --------------------------------------------------------------------------
   C6 : determine_type
--------------------------------------------------------------------------- -/

/-- C6: determine_type returns a recognized declared type (normalizing
    "multiple answer"), else falls back on the two-boolean-options test, then
    on non-emptiness of the option list; in particular
    determine_type "" ["True","False"] = "true_false" and
    determine_type "" [] = "text_input". -/
theorem c6_determine_type :
    (∀ (qtype : String) (options : List String),
      (pyLower (pyStrip qtype) ∈ recognizedTypes →
        determine_type qtype options =
          (if pyLower (pyStrip qtype) = "multiple answer" then "multiple_answer"
           else pyLower (pyStrip qtype))) ∧
      (pyLower (pyStrip qtype) ∉ recognizedTypes → options.length = 2 →
        (∀ o ∈ options, pyLower o ∈ ["true", "false", "yes", "no"]) →
        determine_type qtype options = "true_false") ∧
      (pyLower (pyStrip qtype) ∉ recognizedTypes →
        ¬(options.length = 2 ∧ ∀ o ∈ options, pyLower o ∈ ["true", "false", "yes", "no"]) →
        options ≠ [] → determine_type qtype options = "multiple_choice") ∧
      (pyLower (pyStrip qtype) ∉ recognizedTypes → options = [] →
        determine_type qtype options = "text_input")) ∧
    determine_type "" ["True", "False"] = "true_false" ∧
    determine_type "" [] = "text_input" := by
  have htf : ∀ options : List String, isTFOptions options = true ↔
      (options.length = 2 ∧ ∀ o ∈ options, pyLower o ∈ ["true", "false", "yes", "no"]) := by
    intro options
    simp [isTFOptions, List.all_eq_true]
  refine ⟨fun qtype options => ?_, by decide, by decide⟩
  refine ⟨fun hq => ?_, fun hq hlen hall => ?_, fun hq hneg hne => ?_, fun hq hopt => ?_⟩
  · simp [determine_type, hq]
  · have hc : isTFOptions options = true := (htf options).mpr ⟨hlen, hall⟩
    simp [determine_type, hq, hc]
  · have hc : isTFOptions options = false := by
      rcases Bool.eq_false_or_eq_true (isTFOptions options) with h | h
      · exact absurd ((htf options).mp h) hneg
      · exact h
    simp [determine_type, hq, hc, hne]
  · subst hopt
    have hc : isTFOptions [] = false := by decide
    simp [determine_type, hq, hc]

/-- C6 witness: the recognized-set branch applied at a concrete declared type. -/
theorem c6_witness :
    determine_type " Multiple Answer " ["x"] =
      (if pyLower (pyStrip " Multiple Answer ") = "multiple answer" then "multiple_answer"
       else pyLower (pyStrip " Multiple Answer ")) :=
  (c6_determine_type.1 " Multiple Answer " ["x"]).1 (by decide)

/- --------------------------------------------------------------------------
   C7 : enforce_batches
--------------------------------------------------------------------------- -/

theorem enforceGo_length (bs : Nat) :
    ∀ (rows : List NRow) (j : Nat), (enforceGo bs j rows).length = rows.length := by
  intro rows
  induction rows with
  | nil => intro j; rfl
  | cons r rest ih => intro j; simp [enforceGo, ih]

theorem enforceGo_get (bs : Nat) :
    ∀ (rows : List NRow) (j i : Nat) (h : i < rows.length)
      (h' : i < (enforceGo bs j rows).length),
      (enforceGo bs j rows).get ⟨i, h'⟩ =
        (if badQuiz (rows.get ⟨i, h⟩).Quiz
         then { rows.get ⟨i, h⟩ with Quiz := Val.str (batchLabel (j + i) bs) }
         else rows.get ⟨i, h⟩) := by
  intro rows
  induction rows with
  | nil => intro j i h; exact absurd h (by simp)
  | cons r rest ih =>
      intro j i h h'
      cases i with
      | zero => simp [enforceGo]
      | succ i =>
          have hi : i < rest.length := by simpa using h
          have hi' : i < (enforceGo bs (j + 1) rest).length := by
            rw [enforceGo_length]; exact hi
          have := ih (j + 1) i hi hi'
          simp only [enforceGo, List.get_cons_succ]
          rw [this]
          have harith : j + 1 + i = j + (i + 1) := by omega
          rw [harith]

/-- C7: if every Quiz value is present and non-blank the table passes through
    unchanged; otherwise each row with a blank/missing Quiz is assigned
    "Batch (1 + i / 45)" from its 0-based position in the full table while
    rows with non-blank Quiz values are kept unchanged. -/
theorem c7_enforce_batches (rows : List NRow) :
    (enforce_batches rows 45).length = rows.length ∧
    ((∀ r ∈ rows, badQuiz r.Quiz = false) → enforce_batches rows 45 = rows) ∧
    ∀ (i : Nat) (h : i < rows.length) (h' : i < (enforce_batches rows 45).length),
      (enforce_batches rows 45).get ⟨i, h'⟩ =
        (if badQuiz (rows.get ⟨i, h⟩).Quiz
         then { rows.get ⟨i, h⟩ with Quiz := Val.str (batchLabel i 45) }
         else rows.get ⟨i, h⟩) := by
  unfold enforce_batches
  by_cases hany : rows.any (fun r => badQuiz r.Quiz)
  · rw [if_pos hany]
    refine ⟨enforceGo_length 45 rows 0, fun hall => ?_, fun i h h' => ?_⟩
    · exfalso
      rcases List.any_eq_true.mp hany with ⟨r, hr, hbad⟩
      rw [hall r hr] at hbad
      exact Bool.false_ne_true hbad
    · have := enforceGo_get 45 rows 0 i h h'
      simpa using this
  · rw [if_neg hany]
    refine ⟨rfl, fun _ => rfl, fun i h h' => ?_⟩
    have hfalse : badQuiz (rows.get ⟨i, h⟩).Quiz = false := by
      rcases Bool.eq_false_or_eq_true (badQuiz (rows.get ⟨i, h⟩).Quiz) with hb | hb
      · exact absurd (List.any_eq_true.mpr ⟨_, List.get_mem rows i h, hb⟩) hany
      · exact hb
    simp only [List.get_eq_getElem] at hfalse ⊢
    simp [hfalse]

/-- C7 witness: a table whose single row has a present, non-blank Quiz passes
    through enforce_batches unchanged. -/
theorem c7_witness :
    enforce_batches [ensure_required_metadata { baseRow with Quiz := Val.str "A" }] 45 =
      [ensure_required_metadata { baseRow with Quiz := Val.str "A" }] :=
  (c7_enforce_batches _).2.1 (by decide)

/- --------------------------------------------------------------------------
   C8 : tag inference invariants
--------------------------------------------------------------------------- -/

theorem dedupTake_nodup (m : Nat) :
    ∀ (l acc : List String), acc.Nodup → (dedupTake m l acc).Nodup := by
  intro l
  induction l with
  | nil => intro acc h; exact h
  | cons t ts ih =>
      intro acc h
      simp only [dedupTake]
      by_cases hb : (decide (normTag t ≠ "") && !acc.contains (normTag t)) = true
      · rw [if_pos hb]
        have hnotmem : normTag t ∉ acc := by
          rcases Bool.and_eq_true_iff.mp hb with ⟨_, h2⟩
          intro hmem
          rw [Bool.not_eq_true'] at h2
          exact Bool.false_ne_true (h2 ▸ (List.elem_eq_true_of_mem hmem))
        have hnd : (acc ++ [normTag t]).Nodup := by
          rw [List.nodup_append]
          exact ⟨h, List.nodup_singleton _,
            fun a ha hb' => by
              rcases List.mem_singleton.mp hb' with rfl
              exact hnotmem ha⟩
        split
        · exact hnd
        · exact ih _ hnd
      · rw [if_neg hb]
        split
        · exact h
        · exact ih _ h

theorem dedupTake_length (m : Nat) :
    ∀ (l acc : List String), acc.length < m → (dedupTake m l acc).length ≤ m := by
  intro l
  induction l with
  | nil => intro acc h; exact Nat.le_of_lt h
  | cons t ts ih =>
      intro acc h
      simp only [dedupTake]
      by_cases hb : (decide (normTag t ≠ "") && !acc.contains (normTag t)) = true
      · rw [if_pos hb]
        have hlen : (acc ++ [normTag t]).length ≤ m := by
          simp only [List.length_append, List.length_singleton]
          omega
        split
        · exact hlen
        · next hlt => exact ih _ (by omega)
      · rw [if_neg hb]
        split
        · exact Nat.le_of_lt h
        · next hlt => exact ih _ (by omega)

/-- C8: the inferred Tags string is a comma-space join of the normalize /
    first-occurrence-dedup / truncate loop over the three tag sources in
    priority order, and that list has at most 8 entries with no repeats. -/
theorem c8_infer_tags (quiz_df : List NRow) (collection_name quiz_title : String) :
    ∃ l : List String,
      infer_tags_for_quiz quiz_df collection_name quiz_title 8 =
        String.intercalate ", " l ∧
      l = dedupTake 8 (tagSources quiz_df collection_name quiz_title) [] ∧
      l.length ≤ 8 ∧ l.Nodup :=
  ⟨dedupTake 8 (tagSources quiz_df collection_name quiz_title) [], rfl, rfl,
    dedupTake_length 8 _ [] (by decide), dedupTake_nodup 8 _ [] List.nodup_nil⟩

/- --------------------------------------------------------------------------
   build_questions_and_options: structural lemmas
--------------------------------------------------------------------------- -/

theorem buildQO_nil (qm lookup : List (String × String)) (c : Counters) :
    buildQO qm lookup [] c = ([], []) := rfl

theorem buildQO_cons (qm lookup : List (String × String)) (r : NRow)
    (rest : List NRow) (c : Counters) :
    buildQO qm lookup (r :: rest) c =
      (mkQRec lookup r (rowQuizKey qm r) (cGet c (rowQuizKey qm r) + 1) ::
          (buildQO qm lookup rest (cBump c (rowQuizKey qm r))).1,
        optBlock (qkeyStr (rowQuizKey qm r) (cGet c (rowQuizKey qm r) + 1))
            (determine_type r.Question_Type (split_options r.Options))
            (split_options r.Options)
            (correctLetters
              (determine_type r.Question_Type (split_options r.Options))
              r.CorrectOptions)
          ++ (buildQO qm lookup rest (cBump c (rowQuizKey qm r))).2) := rfl

theorem buildQO_length (qm lookup : List (String × String)) :
    ∀ (rows : List NRow) (c : Counters),
      (buildQO qm lookup rows c).1.length = rows.length := by
  intro rows
  induction rows with
  | nil => intro c; rfl
  | cons r rest ih =>
      intro c
      rw [buildQO_cons]
      simp [ih]

theorem buildQO_get_fields (qm lookup : List (String × String)) :
    ∀ (rows : List NRow) (c : Counters) (i : Nat) (h : i < rows.length)
      (h' : i < (buildQO qm lookup rows c).1.length),
      ((buildQO qm lookup rows c).1.get ⟨i, h'⟩).Hints =
          cleanHintStr (rows.get ⟨i, h⟩).Hints ∧
      ((buildQO qm lookup rows c).1.get ⟨i, h'⟩).MediaURL =
          mediaVal lookup (rows.get ⟨i, h⟩).Question.toStr (rows.get ⟨i, h⟩).has_image ∧
      ((buildQO qm lookup rows c).1.get ⟨i, h'⟩).Text =
          (rows.get ⟨i, h⟩).Question.toStr ∧
      ((buildQO qm lookup rows c).1.get ⟨i, h'⟩).QuizKey =
          rowQuizKey qm (rows.get ⟨i, h⟩) := by
  intro rows
  induction rows with
  | nil => intro c i h; exact absurd h (by simp)
  | cons r rest ih =>
      intro c i h h'
      cases i with
      | zero => simp [buildQO_cons, mkQRec]
      | succ i =>
          have hi : i < rest.length := by simpa using h
          have hi' : i < (buildQO qm lookup rest (cBump c (rowQuizKey qm r))).1.length := by
            rw [buildQO_length]; exact hi
          have hstep := ih (cBump c (rowQuizKey qm r)) i hi hi'
          simp only [buildQO_cons, List.get_cons_succ]
          exact hstep

/- --------------------------------------------------------------------------
   C2 : MediaURL merge precedence
--------------------------------------------------------------------------- -/

/-- C2: if the question text is a key of the lookup map, MediaURL is the
    mapped URL regardless of has_image; else "1" when has_image is true;
    else "".  Additionally, the i-th emitted question record carries exactly
    this MediaURL, computed from its row's Question text and has_image. -/
theorem c2_media_merge :
    (∀ (lookup : List (String × String)) (q_text : String) (has_image : Bool),
      (∀ url, dGet lookup q_text = some url → mediaVal lookup q_text has_image = url) ∧
      (dGet lookup q_text = none → has_image = true →
        mediaVal lookup q_text has_image = "1") ∧
      (dGet lookup q_text = none → has_image = false →
        mediaVal lookup q_text has_image = "")) ∧
    ∀ (df : List NRow) (qm lookup : List (String × String)) (i : Nat)
      (h : i < df.length)
      (h' : i < (build_questions_and_options df qm lookup).1.length),
      ((build_questions_and_options df qm lookup).1.get ⟨i, h'⟩).MediaURL =
        mediaVal lookup (df.get ⟨i, h⟩).Question.toStr (df.get ⟨i, h⟩).has_image := by
  constructor
  · intro lookup q_text has_image
    refine ⟨fun url hu => ?_, fun hn ht => ?_, fun hn hf => ?_⟩
    · simp [mediaVal, hu]
    · subst ht
      have hflag : isFlagged true = true := by decide
      simp [mediaVal, hn, hflag]
    · subst hf
      have hflag : isFlagged false = false := by decide
      simp [mediaVal, hn, hflag]
  · intro df qm lookup i h h'
    exact (buildQO_get_fields qm lookup df (fun _ => 0) i h h').2.1

/-- C2 witness: the three precedence branches at concrete inputs. -/
theorem c2_witness :
    mediaVal [("q1", "https://u")] "q1" false = "https://u" ∧
    mediaVal [("q1", "https://u")] "q2" true = "1" ∧
    mediaVal [("q1", "https://u")] "q2" false = "" :=
  ⟨(c2_media_merge.1 [("q1", "https://u")] "q1" false).1 "https://u" (by decide),
   (c2_media_merge.1 [("q1", "https://u")] "q2" true).2.1 (by decide) rfl,
   (c2_media_merge.1 [("q1", "https://u")] "q2" false).2.2 (by decide) rfl⟩

/- --------------------------------------------------------------------------
   Pipeline plumbing lemmas
--------------------------------------------------------------------------- -/

theorem runPipeline_questions (rows : List Row) (lookup : List (String × String)) :
    (runPipeline rows lookup).questions =
      (build_questions_and_options (processedTable rows)
        (build_quiz_map (processedTable rows)) lookup).1 := rfl

theorem runPipeline_options_eq (rows : List Row) (lookup : List (String × String)) :
    (runPipeline rows lookup).options =
      (build_questions_and_options (processedTable rows)
        (build_quiz_map (processedTable rows)) lookup).2 := rfl

theorem runPipeline_quizzes (rows : List Row) (lookup : List (String × String)) :
    (runPipeline rows lookup).quizzes =
      build_quizzes_df (processedTable rows) (build_quiz_map (processedTable rows))
        (firstVal (build_col_map (processedTable rows))) := rfl

theorem runPipeline_collections (rows : List Row) (lookup : List (String × String)) :
    (runPipeline rows lookup).collections =
      build_collections_df (build_col_map (processedTable rows))
        (firstVal (build_cat_map (processedTable rows))) := rfl

theorem runPipeline_categories (rows : List Row) (lookup : List (String × String)) :
    (runPipeline rows lookup).categories =
      build_categories_df (build_cat_map (processedTable rows)) := rfl

theorem processedTable_length (rows : List Row) :
    (processedTable rows).length = (filterSupported rows).length := by
  unfold processedTable
  rw [(c7_enforce_batches _).1, List.length_map]

theorem processedTable_get_hints (rows : List Row) (i : Nat)
    (h : i < (filterSupported rows).length) (h' : i < (processedTable rows).length) :
    ((processedTable rows).get ⟨i, h'⟩).Hints =
      clean_hint_text ((filterSupported rows).get ⟨i, h⟩).Hints := by
  have hm : i < ((filterSupported rows).map ensure_required_metadata).length := by
    simpa using h
  have hget := (c7_enforce_batches ((filterSupported rows).map ensure_required_metadata)).2.2
    i hm h'
  show ((enforce_batches ((filterSupported rows).map ensure_required_metadata) 45).get
    ⟨i, h'⟩).Hints = _
  rw [hget]
  have hmap : ((filterSupported rows).map ensure_required_metadata).get ⟨i, hm⟩ =
      ensure_required_metadata ((filterSupported rows).get ⟨i, h⟩) := by
    simp
  split <;> simp [hmap, ensure_required_metadata]

/- --------------------------------------------------------------------------
   C4 : Hints cleanup
--------------------------------------------------------------------------- -/

/-- C4 (counterexample): on the raw Hints value "hint: hint: x" the pipeline
    emits "x" (the cleanup runs twice: normalizer, then question builder),
    while a single application of the documented cleanup yields "hint: x". -/
theorem c4_counterexample :
    (runPipeline [{ baseRow with Hints := Val.str "hint: hint: x" }] []).questions.map
        (fun q => q.Hints) = ["x"] ∧
    clean_hint_text (Val.str "hint: hint: x") = "hint: x" := by
  constructor
  · rfl
  · rfl

/-- C4 (amended): the Hints field of the i-th emitted Question record equals
    the documented cleanup applied twice to the i-th surviving raw row's
    Hints value — once by ensure_required_metadata and once more by
    build_questions_and_options. -/
theorem c4_hints_cleaned_twice (rows : List Row) (lookup : List (String × String))
    (i : Nat) (h : i < (filterSupported rows).length)
    (h' : i < (runPipeline rows lookup).questions.length) :
    ((runPipeline rows lookup).questions.get ⟨i, h'⟩).Hints =
      cleanHintStr (clean_hint_text ((filterSupported rows).get ⟨i, h⟩).Hints) := by
  simp only [runPipeline_questions, build_questions_and_options] at h' ⊢
  have hdf : i < (processedTable rows).length := by
    rw [processedTable_length]; exact h
  have hfields := buildQO_get_fields (build_quiz_map (processedTable rows)) lookup
    (processedTable rows) (fun _ => 0) i hdf h'
  rw [hfields.1, processedTable_get_hints rows i h hdf]

/-- C4 witness: the double cleanup at the concrete table whose raw Hints
    value is "hint: hint: x". -/
theorem c4_witness :
    ((runPipeline [{ baseRow with Hints := Val.str "hint: hint: x" }] []).questions.get
        ⟨0, by decide⟩).Hints =
      cleanHintStr (clean_hint_text
        ((filterSupported [{ baseRow with Hints := Val.str "hint: hint: x" }]).get
          ⟨0, by decide⟩).Hints) :=
  c4_hints_cleaned_twice [{ baseRow with Hints := Val.str "hint: hint: x" }] [] 0
    (by decide) (by decide)

/- --------------------------------------------------------------------------
   C1 : referential closure
--------------------------------------------------------------------------- -/

theorem buildQO_quizkey_mem (qm lookup : List (String × String)) :
    ∀ (rows : List NRow) (c : Counters),
      ∀ q ∈ (buildQO qm lookup rows c).1, ∃ r ∈ rows, q.QuizKey = rowQuizKey qm r := by
  intro rows
  induction rows with
  | nil => intro c q hq; simp [buildQO_nil] at hq
  | cons r rest ih =>
      intro c q hq
      rw [buildQO_cons] at hq
      rcases List.mem_cons.mp hq with rfl | hq
      · exact ⟨r, List.mem_cons_self _ _, rfl⟩
      · rcases ih _ q hq with ⟨r', hr', hkey⟩
        exact ⟨r', List.mem_cons_of_mem _ hr', hkey⟩

theorem build_quizzes_df_key_mem (df : List NRow) (qm : List (String × String))
    (ck : String) (r : NRow) (hr : r ∈ df) :
    ∃ z ∈ build_quizzes_df df qm ck, z.QuizKey = rowQuizKey qm r := by
  refine ⟨_, List.mem_map.mpr ⟨r.Quiz.toStr,
    (mem_pyUnique _ _).mpr (List.mem_map.mpr ⟨r, hr, rfl⟩), rfl⟩, rfl⟩

theorem build_quizzes_df_colkey (df : List NRow) (qm : List (String × String))
    (ck : String) (z : QuizRec) (hz : z ∈ build_quizzes_df df qm ck) :
    z.CollectionKey = ck := by
  rcases List.mem_map.mp hz with ⟨title, _, rfl⟩
  rfl

theorem build_col_map_ne_nil (df : List NRow) (h : df ≠ []) :
    build_col_map df ≠ [] := by
  unfold build_col_map
  have h1 : df.map (fun r => fillna r.Collection (Val.str DEFAULT_COLLECTION_NAME)) ≠ [] := by
    simpa using h
  have h2 := pyUnique_ne_nil _ h1
  rcases hu : pyUnique (df.map (fun r => fillna r.Collection (Val.str DEFAULT_COLLECTION_NAME))) with _ | ⟨x, xs⟩
  · exact absurd hu h2
  · simp only [hu, List.map_cons]
    exact dictOf_ne_nil _ _

theorem build_cat_map_ne_nil (df : List NRow) (h : df ≠ []) :
    build_cat_map df ≠ [] := by
  unfold build_cat_map
  have h1 : df.map (fun r => fillna (Val.str r.Category) (Val.str DEFAULT_CATEGORY_NAME)) ≠ [] := by
    simpa using h
  have h2 := pyUnique_ne_nil _ h1
  rcases hu : pyUnique (df.map (fun r => fillna (Val.str r.Category) (Val.str DEFAULT_CATEGORY_NAME))) with _ | ⟨x, xs⟩
  · exact absurd hu h2
  · simp only [hu, List.map_cons]
    exact dictOf_ne_nil _ _

/-- C1 (counterexample to the claim as stated): with quiz titles "A" and "a"
    two distinct Quiz records share QuizKey "QUIZ-A", so a question's QuizKey
    matches two emitted Quiz records, not exactly one. -/
theorem c1_counterexample :
    refClosureExact (runPipeline
      [{ baseRow with Quiz := Val.str "A" }, { baseRow with Quiz := Val.str "a" }] [])
      = false ∧
    ((runPipeline
      [{ baseRow with Quiz := Val.str "A" }, { baseRow with Quiz := Val.str "a" }]
      []).quizzes.map (fun z => z.QuizKey)) = ["QUIZ-A", "QUIZ-A"] := by
  exact ⟨rfl, rfl⟩

/-- C1 (amended): referential closure with "at least one" in place of
    "exactly one": every emitted Question's QuizKey is the QuizKey of an
    emitted Quiz record, every Quiz's CollectionKey is the CollectionKey of
    an emitted Collection record, and every Collection's CategoryKey is the
    CategoryKey of an emitted Category record (the pipeline requires a
    nonempty processed table; on an empty one it raises IndexError). -/
theorem c1_referential_closure (rows : List Row) (lookup : List (String × String))
    (hne : processedTable rows ≠ []) :
    (∀ q ∈ (runPipeline rows lookup).questions,
      ∃ z ∈ (runPipeline rows lookup).quizzes, z.QuizKey = q.QuizKey) ∧
    (∀ z ∈ (runPipeline rows lookup).quizzes,
      ∃ c ∈ (runPipeline rows lookup).collections, c.CollectionKey = z.CollectionKey) ∧
    (∀ c ∈ (runPipeline rows lookup).collections,
      ∃ k ∈ (runPipeline rows lookup).categories, k.CategoryKey = c.CategoryKey) := by
  refine ⟨fun q hq => ?_, fun z hz => ?_, fun c hc => ?_⟩
  · rw [runPipeline_questions] at hq
    rcases buildQO_quizkey_mem (build_quiz_map (processedTable rows)) lookup
      (processedTable rows) (fun _ => 0) q hq with ⟨r, hr, hkey⟩
    rcases build_quizzes_df_key_mem (processedTable rows)
      (build_quiz_map (processedTable rows))
      (firstVal (build_col_map (processedTable rows))) r hr with ⟨z, hz, hzkey⟩
    exact ⟨z, by rw [runPipeline_quizzes]; exact hz, by rw [hzkey, hkey]⟩
  · rw [runPipeline_quizzes] at hz
    have hck := build_quizzes_df_colkey _ _ _ z hz
    rcases firstVal_mem _ (build_col_map_ne_nil _ hne) with ⟨p, hp, hpv⟩
    refine ⟨_, by rw [runPipeline_collections]; exact List.mem_map.mpr ⟨p, hp, rfl⟩, ?_⟩
    rw [hck, ← hpv]
  · rw [runPipeline_collections] at hc
    rcases List.mem_map.mp hc with ⟨p, _, rfl⟩
    rcases firstVal_mem _ (build_cat_map_ne_nil _ hne) with ⟨p', hp', hpv'⟩
    refine ⟨_, by rw [runPipeline_categories]; exact List.mem_map.mpr ⟨p', hp', rfl⟩, ?_⟩
    rw [← hpv']

/-- C1 witness: the amended closure at a concrete one-row table. -/
theorem c1_witness :
    (∀ q ∈ (runPipeline [{ baseRow with Quiz := Val.str "A" }] []).questions,
      ∃ z ∈ (runPipeline [{ baseRow with Quiz := Val.str "A" }] []).quizzes,
        z.QuizKey = q.QuizKey) ∧
    (∀ z ∈ (runPipeline [{ baseRow with Quiz := Val.str "A" }] []).quizzes,
      ∃ c ∈ (runPipeline [{ baseRow with Quiz := Val.str "A" }] []).collections,
        c.CollectionKey = z.CollectionKey) ∧
    (∀ c ∈ (runPipeline [{ baseRow with Quiz := Val.str "A" }] []).collections,
      ∃ k ∈ (runPipeline [{ baseRow with Quiz := Val.str "A" }] []).categories,
        k.CategoryKey = c.CategoryKey) :=
  c1_referential_closure [{ baseRow with Quiz := Val.str "A" }] [] (by decide)

/- --------------------------------------------------------------------------
   C9 : isPublic non-interference
--------------------------------------------------------------------------- -/

theorem filterSupported_scrub (rows : List Row) :
    filterSupported (rows.map scrubRow) = (filterSupported rows).map scrubRow := by
  unfold filterSupported
  rw [List.filter_map]
  rfl

theorem ensure_scrub (r : Row) :
    ensure_required_metadata (scrubRow r) = scrubNRow (ensure_required_metadata r) := rfl

theorem enforceGo_scrub (bs : Nat) :
    ∀ (rows : List NRow) (j : Nat),
      enforceGo bs j (rows.map scrubNRow) = (enforceGo bs j rows).map scrubNRow := by
  intro rows
  induction rows with
  | nil => intro j; rfl
  | cons r rest ih =>
      intro j
      simp only [List.map_cons, enforceGo, ih]
      by_cases hb : badQuiz r.Quiz
      · have hb' : badQuiz (scrubNRow r).Quiz = true := hb
        rw [if_pos hb, if_pos hb']
        rfl
      · have hb' : ¬ badQuiz (scrubNRow r).Quiz = true := hb
        rw [if_neg hb, if_neg hb']

theorem enforce_scrub (rows : List NRow) (bs : Nat) :
    enforce_batches (rows.map scrubNRow) bs = (enforce_batches rows bs).map scrubNRow := by
  unfold enforce_batches
  have hany : (rows.map scrubNRow).any (fun r => badQuiz r.Quiz) =
      rows.any (fun r => badQuiz r.Quiz) := by
    rw [List.any_map]
    rfl
  rw [hany]
  by_cases h : rows.any (fun r => badQuiz r.Quiz)
  · rw [if_pos h, if_pos h, enforceGo_scrub]
  · rw [if_neg h, if_neg h]

theorem processedTable_scrub (rows : List Row) :
    processedTable (rows.map scrubRow) = (processedTable rows).map scrubNRow := by
  unfold processedTable
  rw [filterSupported_scrub]
  have hmm : ((filterSupported rows).map scrubRow).map ensure_required_metadata =
      ((filterSupported rows).map ensure_required_metadata).map scrubNRow := by
    rw [List.map_map, List.map_map]
    rfl
  rw [hmm, enforce_scrub]

theorem build_cat_map_scrub (df : List NRow) :
    build_cat_map (df.map scrubNRow) = build_cat_map df := by
  unfold build_cat_map
  rw [List.map_map]
  rfl

theorem build_col_map_scrub (df : List NRow) :
    build_col_map (df.map scrubNRow) = build_col_map df := by
  unfold build_col_map
  rw [List.map_map]
  rfl

theorem build_quiz_map_scrub (df : List NRow) :
    build_quiz_map (df.map scrubNRow) = build_quiz_map df := by
  unfold build_quiz_map
  rw [List.map_map]
  rfl

theorem buildQO_scrub (qm lookup : List (String × String)) :
    ∀ (rows : List NRow) (c : Counters),
      buildQO qm lookup (rows.map scrubNRow) c = buildQO qm lookup rows c := by
  intro rows
  induction rows with
  | nil => intro c; rfl
  | cons r rest ih =>
      intro c
      simp only [List.map_cons, buildQO_cons, ih]
      rfl

theorem infer_tags_scrub (l : List NRow) (cn t : String) (m : Nat) :
    infer_tags_for_quiz (l.map scrubNRow) cn t m = infer_tags_for_quiz l cn t m := by
  unfold infer_tags_for_quiz tagSources
  rw [List.map_map]
  rfl

theorem firstCollection_scrub (sub : List NRow) :
    firstCollection (sub.map scrubNRow) = firstCollection sub := by
  cases sub <;> rfl

theorem quizzes_df_scrub (df : List NRow) (qm : List (String × String)) (ck : String) :
    build_quizzes_df (df.map scrubNRow) qm ck = build_quizzes_df df qm ck := by
  unfold build_quizzes_df
  have htitles : (df.map scrubNRow).map (fun r => r.Quiz.toStr) =
      df.map (fun r => r.Quiz.toStr) := by
    rw [List.map_map]
    rfl
  rw [htitles]
  refine List.map_congr_left (fun title _ => ?_)
  have hsub : (df.map scrubNRow).filter (fun r => r.Quiz.toStr == title) =
      (df.filter (fun r => r.Quiz.toStr == title)).map scrubNRow := by
    rw [List.filter_map]
    rfl
  have hdiff : ((df.filter (fun r => r.Quiz.toStr == title)).map scrubNRow).map
      (fun r => r.difficulty) =
      (df.filter (fun r => r.Quiz.toStr == title)).map (fun r => r.difficulty) := by
    rw [List.map_map]
    rfl
  simp only [hsub, firstCollection_scrub, infer_tags_scrub, hdiff]

theorem runPipeline_scrub (rows : List Row) (lookup : List (String × String)) :
    runPipeline (rows.map scrubRow) lookup = runPipeline rows lookup := by
  unfold runPipeline build_questions_and_options
  simp only [processedTable_scrub, build_cat_map_scrub, build_col_map_scrub,
    build_quiz_map_scrub, buildQO_scrub, quizzes_df_scrub]

/-- C9: outputs do not depend on the isPublic column — two tables that agree
    after erasing isPublic produce identical record sets — and the emitted
    Quiz.isPublic / Collection.IsPublic fields are the constant True. -/
theorem c9_ispublic_noninterference :
    (∀ (rows1 rows2 : List Row) (lookup : List (String × String)),
      rows1.map scrubRow = rows2.map scrubRow →
      runPipeline rows1 lookup = runPipeline rows2 lookup) ∧
    (∀ (rows : List Row) (lookup : List (String × String)),
      ∀ z ∈ (runPipeline rows lookup).quizzes, z.isPublic = true) ∧
    (∀ (rows : List Row) (lookup : List (String × String)),
      ∀ c ∈ (runPipeline rows lookup).collections, c.IsPublic = true) := by
  refine ⟨fun rows1 rows2 lookup h => ?_, fun rows lookup z hz => ?_,
    fun rows lookup c hc => ?_⟩
  · rw [← runPipeline_scrub rows1, ← runPipeline_scrub rows2, h]
  · rw [runPipeline_quizzes] at hz
    rcases List.mem_map.mp hz with ⟨title, _, rfl⟩
    rfl
  · rw [runPipeline_collections] at hc
    rcases List.mem_map.mp hc with ⟨p, _, rfl⟩
    rfl

/-- C9 witness: two one-row tables differing only in isPublic give identical
    outputs. -/
theorem c9_witness :
    runPipeline [{ baseRow with isPublic := Val.str "false" }] [] =
      runPipeline [{ baseRow with isPublic := Val.bool true }] [] :=
  c9_ispublic_noninterference.1
    [{ baseRow with isPublic := Val.str "false" }]
    [{ baseRow with isPublic := Val.bool true }] [] (by decide)

/- --------------------------------------------------------------------------
   C10 : key distinctness and ordinal contiguity
--------------------------------------------------------------------------- -/

theorem digitChar_toNat (d : Nat) (h : d < 10) : (digitChar d).toNat = 48 + d := by
  interval_cases d <;> rfl

theorem digitChar_isDigit (d : Nat) (h : d < 10) : isDigitC (digitChar d) = true := by
  interval_cases d <;> rfl

theorem natDigsF_digits : ∀ (f n : Nat), n < f →
    ∀ c ∈ natDigsF n f, isDigitC c = true := by
  intro f
  induction f with
  | zero => intro n h; omega
  | succ f ih =>
      intro n h c hc
      simp only [natDigsF] at hc
      by_cases h10 : n < 10
      · rw [if_pos h10] at hc
        rcases List.mem_singleton.mp hc with rfl
        exact digitChar_isDigit n h10
      · rw [if_neg h10] at hc
        rcases List.mem_append.mp hc with hc | hc
        · exact ih (n / 10) (by omega) c hc
        · rcases List.mem_singleton.mp hc with rfl
          exact digitChar_isDigit (n % 10) (Nat.mod_lt n (by omega))

theorem natDigsF_parse : ∀ (f n a : Nat), n < f →
    (natDigsF n f).foldl (fun a c => a * 10 + (c.toNat - 48)) a =
      a * 10 ^ (natDigsF n f).length + n := by
  intro f
  induction f with
  | zero => intro n a h; omega
  | succ f ih =>
      intro n a h
      simp only [natDigsF]
      by_cases h10 : n < 10
      · rw [if_pos h10]
        simp [digitChar_toNat n h10]
      · rw [if_neg h10]
        rw [List.foldl_append]
        have hd : n / 10 < f := by omega
        rw [ih (n / 10) a hd]
        simp [digitChar_toNat (n % 10) (Nat.mod_lt n (by omega)), List.length_append]
        have hmod : (a * 10 ^ (natDigsF (n / 10) f).length + n / 10) * 10 + n % 10 =
            a * (10 ^ (natDigsF (n / 10) f).length * 10) + (n / 10 * 10 + n % 10) := by
          ring
        rw [hmod]
        have hdm : n / 10 * 10 + n % 10 = n := by omega
        rw [hdm, pow_succ]

theorem parseDigs_natDigs (n : Nat) : parseDigs (natDigsF n (n + 1)) = n := by
  have := natDigsF_parse (n + 1) n 0 (Nat.lt_succ_self n)
  simpa [parseDigs] using this

theorem parseDigs_pad3 (n : Nat) : parseDigs (pad3 n) = n := by
  unfold pad3 parseDigs
  rw [List.foldl_append]
  have hz : ∀ (k : Nat) (a : Nat), a = 0 →
      (List.replicate k '0').foldl (fun a c => a * 10 + (c.toNat - 48)) a = 0 := by
    intro k
    induction k with
    | zero => intro a ha; simpa using ha
    | succ k ih =>
        intro a ha
        simp only [List.replicate, List.foldl_cons]
        exact ih _ (by subst ha; rfl)
  rw [hz _ 0 rfl]
  exact parseDigs_natDigs n

theorem pad3_inj (m n : Nat) (h : pad3 m = pad3 n) : m = n := by
  have := congrArg parseDigs h
  rwa [parseDigs_pad3, parseDigs_pad3] at this

theorem pad3_digits (n : Nat) : ∀ c ∈ pad3 n, isDigitC c = true := by
  intro c hc
  rcases List.mem_append.mp hc with hc | hc
  · rcases List.eq_of_mem_replicate hc with rfl
    rfl
  · exact natDigsF_digits (n + 1) n (Nat.lt_succ_self n) c hc

theorem pad3_no_dash (n : Nat) : ∀ c ∈ pad3 n, c ≠ '-' := by
  intro c hc heq
  have := pad3_digits n c hc
  rw [heq] at this
  exact Bool.false_ne_true this

theorem append_dash_inj : ∀ (a1 a2 b1 b2 : List Char),
    (∀ c ∈ a1, c ≠ '-') → (∀ c ∈ a2, c ≠ '-') →
    a1 ++ '-' :: b1 = a2 ++ '-' :: b2 → a1 = a2 ∧ b1 = b2 := by
  intro a1
  induction a1 with
  | nil =>
      intro a2 b1 b2 _ h2 heq
      cases a2 with
      | nil => simpa using heq
      | cons y ys =>
          simp only [List.nil_append, List.cons_append, List.cons.injEq] at heq
          exact absurd heq.1.symm (h2 y (List.mem_cons_self _ _))
  | cons x xs ih =>
      intro a2 b1 b2 h1 h2 heq
      cases a2 with
      | nil =>
          simp only [List.cons_append, List.nil_append, List.cons.injEq] at heq
          exact absurd heq.1 (h1 x (List.mem_cons_self _ _))
      | cons y ys =>
          simp only [List.cons_append, List.cons.injEq] at heq
          rcases heq with ⟨rfl, heq⟩
          rcases ih ys b1 b2 (fun c hc => h1 c (List.mem_cons_of_mem _ hc))
            (fun c hc => h2 c (List.mem_cons_of_mem _ hc)) heq with ⟨rfl, rfl⟩
          exact ⟨rfl, rfl⟩

theorem qkeyStr_inj (k1 k2 : String) (i1 i2 : Nat)
    (h : qkeyStr k1 i1 = qkeyStr k2 i2) : k1 = k2 ∧ i1 = i2 := by
  have hdata : 'Q' :: '-' :: k1.data ++ '-' :: pad3 i1 =
      'Q' :: '-' :: k2.data ++ '-' :: pad3 i2 := congrArg String.data h
  have hrev := congrArg List.reverse hdata
  simp only [List.reverse_cons, List.reverse_append] at hrev
  have hform : ∀ (k : String) (i : Nat),
      (('-' :: pad3 i).reverse ++ k.data.reverse ++ ['-'] ++ ['Q']) =
        (pad3 i).reverse ++ '-' :: (k.data.reverse ++ ['-'] ++ ['Q']) := by
    intro k i
    simp [List.reverse_cons]
  have hrev' : (pad3 i1).reverse ++ '-' :: (k1.data.reverse ++ ['-'] ++ ['Q']) =
      (pad3 i2).reverse ++ '-' :: (k2.data.reverse ++ ['-'] ++ ['Q']) := by
    rw [← hform, ← hform]
    simpa [List.append_assoc] using hrev
  have hsplit := append_dash_inj _ _ _ _
    (fun c hc => pad3_no_dash i1 c (List.mem_reverse.mp hc))
    (fun c hc => pad3_no_dash i2 c (List.mem_reverse.mp hc)) hrev'
  constructor
  · have hk : k1.data.reverse = k2.data.reverse := by
      have := hsplit.2
      simpa using List.append_cancel_right this
    have : k1.data = k2.data := by
      have := congrArg List.reverse hk
      simpa using this
    cases k1; cases k2; exact congrArg String.mk this
  · have hp : pad3 i1 = pad3 i2 := by
      have := congrArg List.reverse hsplit.1
      simpa using this
    exact pad3_inj _ _ hp

theorem cBump_ge (c : Counters) (key k : String) : c k ≤ cBump c key k := by
  unfold cBump
  split
  · next h => subst h; omega
  · exact Nat.le_refl _

theorem cBump_self (c : Counters) (key : String) : cBump c key key = c key + 1 := by
  simp [cBump]

theorem buildQO_orderidx_gt (qm lookup : List (String × String)) :
    ∀ (rows : List NRow) (c : Counters),
      ∀ q ∈ (buildQO qm lookup rows c).1, c q.QuizKey < q.OrderIndex := by
  intro rows
  induction rows with
  | nil => intro c q hq; simp [buildQO_nil] at hq
  | cons r rest ih =>
      intro c q hq
      rw [buildQO_cons] at hq
      rcases List.mem_cons.mp hq with rfl | hq
      · show c (rowQuizKey qm r) < cGet c (rowQuizKey qm r) + 1
        exact Nat.lt_succ_self _
      · have h1 := ih (cBump c (rowQuizKey qm r)) q hq
        exact Nat.lt_of_le_of_lt (cBump_ge c (rowQuizKey qm r) q.QuizKey) h1

theorem buildQO_questionkey_eq (qm lookup : List (String × String)) :
    ∀ (rows : List NRow) (c : Counters),
      ∀ q ∈ (buildQO qm lookup rows c).1,
        q.QuestionKey = qkeyStr q.QuizKey q.OrderIndex := by
  intro rows
  induction rows with
  | nil => intro c q hq; simp [buildQO_nil] at hq
  | cons r rest ih =>
      intro c q hq
      rw [buildQO_cons] at hq
      rcases List.mem_cons.mp hq with rfl | hq
      · rfl
      · exact ih _ q hq

theorem buildQO_pairs_nodup (qm lookup : List (String × String)) :
    ∀ (rows : List NRow) (c : Counters),
      ((buildQO qm lookup rows c).1.map (fun q => (q.QuizKey, q.OrderIndex))).Nodup := by
  intro rows
  induction rows with
  | nil => intro c; simp [buildQO_nil]
  | cons r rest ih =>
      intro c
      rw [buildQO_cons]
      simp only [List.map_cons, List.nodup_cons]
      refine ⟨?_, ih _⟩
      intro hmem
      rcases List.mem_map.mp hmem with ⟨q, hq, hpair⟩
      simp only [Prod.mk.injEq] at hpair
      have hkey : q.QuizKey = rowQuizKey qm r := hpair.1
      have hidx : q.OrderIndex = cGet c (rowQuizKey qm r) + 1 := hpair.2
      have hmono := buildQO_orderidx_gt qm lookup rest (cBump c (rowQuizKey qm r)) q hq
      rw [hkey, cBump_self] at hmono
      show False
      rw [hidx] at hmono
      exact Nat.lt_irrefl _ hmono

theorem qkeyPair_injective :
    Function.Injective (fun p : String × Nat => qkeyStr p.1 p.2) := by
  intro p1 p2 h
  rcases qkeyStr_inj p1.1 p2.1 p1.2 p2.2 h with ⟨h1, h2⟩
  exact Prod.ext h1 h2

theorem buildQO_keys_nodup (qm lookup : List (String × String))
    (rows : List NRow) (c : Counters) :
    ((buildQO qm lookup rows c).1.map (fun q => q.QuestionKey)).Nodup := by
  have hmap : (buildQO qm lookup rows c).1.map (fun q => q.QuestionKey) =
      ((buildQO qm lookup rows c).1.map (fun q => (q.QuizKey, q.OrderIndex))).map
        (fun p => qkeyStr p.1 p.2) := by
    rw [List.map_map]
    exact List.map_congr_left (fun q hq => buildQO_questionkey_eq qm lookup rows c q hq)
  rw [hmap]
  exact (buildQO_pairs_nodup qm lookup rows c).map qkeyPair_injective

theorem buildQO_fst_cons (qm lookup : List (String × String)) (r : NRow)
    (rest : List NRow) (c : Counters) :
    (buildQO qm lookup (r :: rest) c).1 =
      mkQRec lookup r (rowQuizKey qm r) (cGet c (rowQuizKey qm r) + 1) ::
        (buildQO qm lookup rest (cBump c (rowQuizKey qm r))).1 := rfl

theorem buildQO_snd_cons (qm lookup : List (String × String)) (r : NRow)
    (rest : List NRow) (c : Counters) :
    (buildQO qm lookup (r :: rest) c).2 =
      optBlock (qkeyStr (rowQuizKey qm r) (cGet c (rowQuizKey qm r) + 1))
          (determine_type r.Question_Type (split_options r.Options))
          (split_options r.Options)
          (correctLetters (determine_type r.Question_Type (split_options r.Options))
            r.CorrectOptions)
        ++ (buildQO qm lookup rest (cBump c (rowQuizKey qm r))).2 := rfl

theorem buildQO_filter_orderidx (qm lookup : List (String × String)) :
    ∀ (rows : List NRow) (c : Counters) (k : String),
      (((buildQO qm lookup rows c).1.filter (fun q => q.QuizKey == k)).map
          (fun q => q.OrderIndex)) =
        List.range' (c k + 1)
          (((buildQO qm lookup rows c).1.filter (fun q => q.QuizKey == k)).length) := by
  intro rows
  induction rows with
  | nil => intro c k; simp [buildQO_nil]
  | cons r rest ih =>
      intro c k
      rw [buildQO_fst_cons, List.filter_cons]
      by_cases hk : rowQuizKey qm r = k
      · subst hk
        have hhead : ((mkQRec lookup r (rowQuizKey qm r)
            (cGet c (rowQuizKey qm r) + 1)).QuizKey == rowQuizKey qm r) = true := by
          simp [mkQRec]
        rw [if_pos hhead]
        simp only [List.map_cons, List.length_cons]
        rw [ih (cBump c (rowQuizKey qm r)) (rowQuizKey qm r), cBump_self]
        show (cGet c (rowQuizKey qm r) + 1) :: List.range' (cGet c (rowQuizKey qm r) + 1 + 1) _ =
          List.range' (cGet c (rowQuizKey qm r) + 1) _
        rw [List.range'_succ]
      · have hhead : ¬ ((mkQRec lookup r (rowQuizKey qm r)
            (cGet c (rowQuizKey qm r) + 1)).QuizKey == k) = true := by
          simp [mkQRec]
          exact hk
        rw [if_neg hhead]
        have hcb : cBump c (rowQuizKey qm r) k = c k := by
          simp only [cBump]
          rw [if_neg (fun h => hk h.symm)]
        have := ih (cBump c (rowQuizKey qm r)) k
        rw [hcb] at this
        exact this

theorem optRowsGo_qkey (qkey : String) (correct : List Char) :
    ∀ (opts : List String) (i : Nat),
      ∀ o ∈ optRowsGo qkey correct i opts, o.QuestionKey = qkey := by
  intro opts
  induction opts with
  | nil => intro i o ho; simp [optRowsGo] at ho
  | cons x rest ih =>
      intro i o ho
      rcases List.mem_cons.mp ho with rfl | ho
      · rfl
      · exact ih (i + 1) o ho

theorem optRowsGo_orderidx (qkey : String) (correct : List Char) :
    ∀ (opts : List String) (i : Nat),
      (optRowsGo qkey correct i opts).map (fun o => o.OrderIndex) =
        List.range' i opts.length := by
  intro opts
  induction opts with
  | nil => intro i; rfl
  | cons x rest ih =>
      intro i
      simp only [optRowsGo, List.map_cons, List.length_cons, List.range'_succ]
      rw [ih (i + 1)]

theorem optRowsGo_length (qkey : String) (correct : List Char)
    (opts : List String) (i : Nat) :
    (optRowsGo qkey correct i opts).length = opts.length := by
  have := congrArg List.length (optRowsGo_orderidx qkey correct opts i)
  simpa using this

theorem optBlock_qkey (qkey qtype : String) (opts : List String)
    (correct : List Char) :
    ∀ o ∈ optBlock qkey qtype opts correct, o.QuestionKey = qkey := by
  intro o ho
  rcases List.mem_append.mp ho with ho | ho
  · exact optRowsGo_qkey qkey correct opts 1 o ho
  · split at ho
    · rcases List.mem_cons.mp ho with rfl | ho
      · rfl
      · rcases List.mem_cons.mp ho with rfl | ho
        · rfl
        · simp at ho
    · simp at ho

theorem optBlock_orderidx (qkey qtype : String) (opts : List String)
    (correct : List Char) :
    (optBlock qkey qtype opts correct).map (fun o => o.OrderIndex) =
      List.range' 1 (optBlock qkey qtype opts correct).length := by
  unfold optBlock
  cases opts with
  | nil =>
      by_cases htf : qtype = "true_false"
      · simp [optRowsGo, htf, tfRows, List.range']
      · simp [optRowsGo, htf]
  | cons x rest =>
      have hcond : ¬ ((decide ((x :: rest) = [])
          && decide (qtype = "true_false")) = true) := by simp
      rw [if_neg hcond]
      simp only [List.append_nil]
      rw [optRowsGo_orderidx qkey correct (x :: rest) 1,
        optRowsGo_length qkey correct (x :: rest) 1]

theorem buildQO_opts_mem (qm lookup : List (String × String)) :
    ∀ (rows : List NRow) (c : Counters),
      ∀ o ∈ (buildQO qm lookup rows c).2,
        ∃ q ∈ (buildQO qm lookup rows c).1, o.QuestionKey = q.QuestionKey := by
  intro rows
  induction rows with
  | nil => intro c o ho; simp [buildQO_nil] at ho
  | cons r rest ih =>
      intro c o ho
      rw [buildQO_snd_cons] at ho
      rw [buildQO_fst_cons]
      rcases List.mem_append.mp ho with ho | ho
      · refine ⟨mkQRec lookup r (rowQuizKey qm r) (cGet c (rowQuizKey qm r) + 1),
          List.mem_cons_self _ _, ?_⟩
        exact optBlock_qkey _ _ _ _ o ho
      · rcases ih (cBump c (rowQuizKey qm r)) o ho with ⟨q, hq, hkey⟩
        exact ⟨q, List.mem_cons_of_mem _ hq, hkey⟩

theorem buildQO_per_question (qm lookup : List (String × String)) :
    ∀ (rows : List NRow) (c : Counters),
      ∀ q ∈ (buildQO qm lookup rows c).1,
        (((buildQO qm lookup rows c).2.filter
            (fun o => o.QuestionKey == q.QuestionKey)).map (fun o => o.OrderIndex)) =
          List.range' 1 (((buildQO qm lookup rows c).2.filter
            (fun o => o.QuestionKey == q.QuestionKey)).length) := by
  intro rows
  induction rows with
  | nil => intro c q hq; simp [buildQO_nil] at hq
  | cons r rest ih =>
      intro c q hq
      rw [buildQO_fst_cons] at hq
      rw [buildQO_snd_cons, List.filter_append]
      rcases List.mem_cons.mp hq with rfl | hq
      · have hblock : (optBlock (qkeyStr (rowQuizKey qm r) (cGet c (rowQuizKey qm r) + 1))
            (determine_type r.Question_Type (split_options r.Options))
            (split_options r.Options)
            (correctLetters (determine_type r.Question_Type (split_options r.Options))
              r.CorrectOptions)).filter
            (fun o => o.QuestionKey ==
              (mkQRec lookup r (rowQuizKey qm r)
                (cGet c (rowQuizKey qm r) + 1)).QuestionKey) =
            optBlock (qkeyStr (rowQuizKey qm r) (cGet c (rowQuizKey qm r) + 1))
              (determine_type r.Question_Type (split_options r.Options))
              (split_options r.Options)
              (correctLetters (determine_type r.Question_Type (split_options r.Options))
                r.CorrectOptions) := by
          rw [List.filter_eq_self]
          intro o ho
          have := optBlock_qkey _ _ _ _ o ho
          simp [this, mkQRec]
        have hrest : ((buildQO qm lookup rest (cBump c (rowQuizKey qm r))).2.filter
            (fun o => o.QuestionKey ==
              (mkQRec lookup r (rowQuizKey qm r)
                (cGet c (rowQuizKey qm r) + 1)).QuestionKey)) = [] := by
          rw [List.filter_eq_nil_iff]
          intro o ho
          rcases buildQO_opts_mem qm lookup rest (cBump c (rowQuizKey qm r)) o ho with
            ⟨q', hq', hkey⟩
          have hk' := buildQO_questionkey_eq qm lookup rest (cBump c (rowQuizKey qm r)) q' hq'
          have hmono := buildQO_orderidx_gt qm lookup rest (cBump c (rowQuizKey qm r)) q' hq'
          intro hbeq
          have heq : o.QuestionKey =
              qkeyStr (rowQuizKey qm r) (cGet c (rowQuizKey qm r) + 1) :=
            eq_of_beq hbeq
          rw [hkey, hk'] at heq
          rcases qkeyStr_inj _ _ _ _ heq with ⟨hq1, hq2⟩
          rw [hq1, cBump_self] at hmono
          rw [hq2] at hmono
          exact Nat.lt_irrefl _ hmono
        rw [hblock, hrest, List.append_nil]
        exact optBlock_orderidx _ _ _ _
      · have hblock : (optBlock (qkeyStr (rowQuizKey qm r) (cGet c (rowQuizKey qm r) + 1))
            (determine_type r.Question_Type (split_options r.Options))
            (split_options r.Options)
            (correctLetters (determine_type r.Question_Type (split_options r.Options))
              r.CorrectOptions)).filter (fun o => o.QuestionKey == q.QuestionKey) = [] := by
          rw [List.filter_eq_nil_iff]
          intro o ho
          have hok := optBlock_qkey _ _ _ _ o ho
          have hk' := buildQO_questionkey_eq qm lookup rest (cBump c (rowQuizKey qm r)) q hq
          have hmono := buildQO_orderidx_gt qm lookup rest (cBump c (rowQuizKey qm r)) q hq
          intro hbeq
          have heq := eq_of_beq hbeq
          rw [hok, hk'] at heq
          rcases qkeyStr_inj _ _ _ _ heq.symm with ⟨hq1, hq2⟩
          rw [hq1, cBump_self] at hmono
          rw [hq2] at hmono
          exact Nat.lt_irrefl _ hmono
        rw [hblock, List.nil_append]
        exact ih (cBump c (rowQuizKey qm r)) q hq

/-- C10: emitted QuestionKeys are pairwise distinct; within each QuizKey the
    question OrderIndex values run 1, 2, 3, ... contiguously in input row
    order (counters are keyed by the generated quiz key); each question's
    option records carry OrderIndex 1..n contiguously, and the synthetic
    True/False pair receives ordinals 1 and 2. -/
theorem c10_keys_ordinals (df : List NRow) (qm lookup : List (String × String)) :
    ((build_questions_and_options df qm lookup).1.map (fun q => q.QuestionKey)).Nodup ∧
    (∀ k : String,
      (((build_questions_and_options df qm lookup).1.filter
          (fun q => q.QuizKey == k)).map (fun q => q.OrderIndex)) =
        List.range' 1 (((build_questions_and_options df qm lookup).1.filter
          (fun q => q.QuizKey == k)).length)) ∧
    (∀ q ∈ (build_questions_and_options df qm lookup).1,
      (((build_questions_and_options df qm lookup).2.filter
          (fun o => o.QuestionKey == q.QuestionKey)).map (fun o => o.OrderIndex)) =
        List.range' 1 (((build_questions_and_options df qm lookup).2.filter
          (fun o => o.QuestionKey == q.QuestionKey)).length)) ∧
    (∀ (qkey : String) (correct : List Char),
      (tfRows qkey correct).map (fun o => o.OrderIndex) = [1, 2]) := by
  refine ⟨buildQO_keys_nodup qm lookup df _, fun k => ?_,
    fun q hq => buildQO_per_question qm lookup df _ q hq,
    fun qkey correct => rfl⟩
  exact buildQO_filter_orderidx qm lookup df (fun _ => 0) k

/-- C10 witness: the per-question option contiguity at a concrete true_false
    row (whose synthetic pair receives ordinals 1 and 2). -/
theorem c10_witness :
    (((build_questions_and_options
        [ensure_required_metadata { baseRow with Question_Type := Val.str "true_false" }]
        [] []).2.filter
        (fun o => o.QuestionKey ==
          ((build_questions_and_options
            [ensure_required_metadata { baseRow with Question_Type := Val.str "true_false" }]
            [] []).1.get ⟨0, by decide⟩).QuestionKey)).map (fun o => o.OrderIndex)) =
      List.range' 1 (((build_questions_and_options
        [ensure_required_metadata { baseRow with Question_Type := Val.str "true_false" }]
        [] []).2.filter
        (fun o => o.QuestionKey ==
          ((build_questions_and_options
            [ensure_required_metadata { baseRow with Question_Type := Val.str "true_false" }]
            [] []).1.get ⟨0, by decide⟩).QuestionKey)).length) :=
  (c10_keys_ordinals
    [ensure_required_metadata { baseRow with Question_Type := Val.str "true_false" }]
    [] []).2.2.1 _ (List.get_mem _ _ _)

/- --------------------------------------------------------------------------
   C3 : multiple_answer letter extraction
--------------------------------------------------------------------------- -/

theorem isAJ_not_ws (c : Char) (h : isAJ c = true) : isWsC c = false := by
  by_contra hw
  rw [Bool.not_eq_false] at hw
  have hc : c = ' ' ∨ c = '\t' ∨ c = '\n' ∨ c = '\r' ∨ c = '\x0B' ∨ c = '\x0C' := by
    simpa [isWsC, or_assoc] using hw
  rcases hc with rfl | rfl | rfl | rfl | rfl | rfl <;> exact absurd h (by decide)

theorem skipWsF_ge (l : List Char) : ∀ (f i : Nat), i ≤ skipWsF l f i := by
  intro f
  induction f with
  | zero => intro i; exact Nat.le_refl _
  | succ f ih =>
      intro i
      cases hg : l.get? i with
      | none =>
          simp only [skipWsF, hg]
          exact Nat.le_refl _
      | some c =>
          simp only [skipWsF, hg]
          by_cases hw : isWsC c
          · rw [if_pos hw]
            exact Nat.le_trans (Nat.le_succ i) (ih (i + 1))
          · rw [if_neg hw]

theorem skipWs_ge (l : List Char) (i : Nat) : i ≤ skipWs l i := skipWsF_ge l l.length i

theorem skipWsF_ws (l : List Char) : ∀ (f i k : Nat), i ≤ k → k < skipWsF l f i →
    ∃ c, l.get? k = some c ∧ isWsC c := by
  intro f
  induction f with
  | zero => intro i k h1 h2; simp only [skipWsF] at h2; omega
  | succ f ih =>
      intro i k h1 h2
      cases hg : l.get? i with
      | none =>
          simp only [skipWsF, hg] at h2
          omega
      | some c =>
          simp only [skipWsF, hg] at h2
          by_cases hw : isWsC c
          · rw [if_pos hw] at h2
            by_cases hik : k = i
            · exact ⟨c, hik ▸ hg, hw⟩
            · exact ih (i + 1) k (by omega) h2
          · rw [if_neg hw] at h2; omega

theorem skipWs_ws (l : List Char) (i k : Nat) (h1 : i ≤ k) (h2 : k < skipWs l i) :
    ∃ c, l.get? k = some c ∧ isWsC c := skipWsF_ws l l.length i k h1 h2

theorem skipWsF_stop (l : List Char) : ∀ (f i : Nat), l.length ≤ f + i →
    l.get? (skipWsF l f i) = none ∨
      ∃ c, l.get? (skipWsF l f i) = some c ∧ isWsC c = false := by
  intro f
  induction f with
  | zero =>
      intro i h
      simp only [skipWsF]
      left
      exact List.get?_eq_none.mpr (by omega)
  | succ f ih =>
      intro i h
      cases hg : l.get? i with
      | none => left; simp only [skipWsF, hg]
      | some c =>
          simp only [skipWsF, hg]
          by_cases hw : isWsC c
          · rw [if_pos hw]
            exact ih (i + 1) (by omega)
          · rw [if_neg hw]
            right
            exact ⟨c, hg, by simp [hw]⟩

theorem skipWs_stop (l : List Char) (i : Nat) :
    l.get? (skipWs l i) = none ∨
      ∃ c, l.get? (skipWs l i) = some c ∧ isWsC c = false :=
  skipWsF_stop l l.length i (by omega)

theorem skipWsF_exact (l : List Char) (p : Nat) :
    ∀ (f j : Nat), p - j ≤ f → j ≤ p →
      (∀ k, j ≤ k → k < p → ∃ c, l.get? k = some c ∧ isWsC c) →
      (∃ c, l.get? p = some c ∧ isWsC c = false) →
      skipWsF l f j = p := by
  intro f
  induction f with
  | zero =>
      intro j h1 h2 _ _
      have : j = p := by omega
      simpa [skipWsF] using this
  | succ f ih =>
      intro j h1 h2 hws hstop
      by_cases hjp : j = p
      · subst hjp
        rcases hstop with ⟨c, hc, hnw⟩
        simp only [skipWsF, hc]
        rw [if_neg (by simp [hnw])]
      · have hjlt : j < p := by omega
        rcases hws j (Nat.le_refl j) hjlt with ⟨c, hc, hw⟩
        simp only [skipWsF, hc]
        rw [if_pos hw]
        exact ih (j + 1) (by omega) (by omega) (fun k hk1 hk2 => hws k (by omega) hk2) hstop

theorem skipWs_exact (l : List Char) (j p : Nat) (h2 : j ≤ p)
    (hws : ∀ k, j ≤ k → k < p → ∃ c, l.get? k = some c ∧ isWsC c)
    (hstop : ∃ c, l.get? p = some c ∧ isWsC c = false) :
    skipWs l j = p := by
  have hp : p < l.length := by
    rcases hstop with ⟨c, hc, _⟩
    rcases List.get?_eq_some.mp hc with ⟨hlt, _⟩
    exact hlt
  exact skipWsF_exact l p l.length j (by omega) h2 hws hstop

theorem lpAt_some_iff (l : List Char) (p : Nat) (a : Char) :
    lpAt l p = some a ↔
      l.get? p = some a ∧ isAJ a = true ∧ l.get? (p + 1) = some ')' := by
  cases h1 : l.get? p with
  | none => simp only [lpAt, h1]; simp
  | some x =>
      cases h2 : l.get? (p + 1) with
      | none => simp only [lpAt, h1, h2]; simp
      | some y =>
          simp only [lpAt, h1, h2]
          by_cases hc : (isAJ x && decide (y = ')')) = true
          · rw [if_pos hc]
            rcases Bool.and_eq_true_iff.mp hc with ⟨hx, hy⟩
            have hy' : y = ')' := by simpa using hy
            subst hy'
            constructor
            · rintro h; rcases Option.some.inj h with rfl
              exact ⟨rfl, hx, rfl⟩
            · rintro ⟨ha, _, _⟩; rcases Option.some.inj ha with rfl; rfl
          · rw [if_neg hc]
            constructor
            · rintro h; cases h
            · rintro ⟨ha, haj, hy⟩
              rcases Option.some.inj ha with rfl
              rcases Option.some.inj hy with rfl
              exact absurd (by simp [haj]) hc

theorem maMatchAt_some (l : List Char) (i : Nat) (a : Char) (e : Nat)
    (h : maMatchAt l i = some (a, e)) :
    ∃ p, e = p + 2 ∧ l.get? p = some a ∧ isAJ a = true ∧ l.get? (p + 1) = some ')' ∧
      i < e ∧
      ((p = 0 ∧ i = 0) ∨ (l.get? i = some ';' ∧ i < p ∧
        ∀ k, i < k → k < p → ∃ c, l.get? k = some c ∧ isWsC c)) := by
  unfold maMatchAt at h
  by_cases hi : i = 0
  · subst hi
    rw [if_pos rfl] at h
    cases hlp : lpAt l 0 with
    | some x =>
        rw [hlp] at h
        simp only [Option.some.injEq, Prod.mk.injEq] at h
        obtain ⟨rfl, rfl⟩ := h
        rcases (lpAt_some_iff l 0 x).mp hlp with ⟨hg, haj, hpn⟩
        exact ⟨0, rfl, hg, haj, hpn, by omega, Or.inl ⟨rfl, rfl⟩⟩
    | none =>
        rw [hlp] at h
        by_cases hsemi : l.get? 0 = some ';'
        · rw [if_pos hsemi] at h
          cases hlp2 : lpAt l (skipWs l 1) with
          | none => rw [hlp2] at h; cases h
          | some x =>
              rw [hlp2] at h
              simp only [Option.map_some', Option.some.injEq, Prod.mk.injEq] at h
              obtain ⟨rfl, rfl⟩ := h
              rcases (lpAt_some_iff l (skipWs l 1) x).mp hlp2 with ⟨hg, haj, hpn⟩
              have hge : 1 ≤ skipWs l 1 := skipWs_ge l 1
              refine ⟨skipWs l 1, rfl, hg, haj, hpn, by omega,
                Or.inr ⟨hsemi, by omega, fun k hk1 hk2 => skipWs_ws l 1 k (by omega) hk2⟩⟩
        · rw [if_neg hsemi] at h; cases h
  · rw [if_neg hi] at h
    by_cases hsemi : l.get? i = some ';'
    · rw [if_pos hsemi] at h
      cases hlp2 : lpAt l (skipWs l (i + 1)) with
      | none => rw [hlp2] at h; cases h
      | some x =>
          rw [hlp2] at h
          simp only [Option.map_some', Option.some.injEq, Prod.mk.injEq] at h
          obtain ⟨rfl, rfl⟩ := h
          rcases (lpAt_some_iff l (skipWs l (i + 1)) x).mp hlp2 with ⟨hg, haj, hpn⟩
          have hge : i + 1 ≤ skipWs l (i + 1) := skipWs_ge l (i + 1)
          refine ⟨skipWs l (i + 1), rfl, hg, haj, hpn, by omega,
            Or.inr ⟨hsemi, by omega,
              fun k hk1 hk2 => skipWs_ws l (i + 1) k (by omega) hk2⟩⟩
    · rw [if_neg hsemi] at h; cases h

theorem maMatchAt_none (l : List Char) (i : Nat) (h : maMatchAt l i = none) :
    (i = 0 → lpAt l 0 = none) ∧
    (l.get? i = some ';' → lpAt l (skipWs l (i + 1)) = none) := by
  unfold maMatchAt at h
  by_cases hi : i = 0
  · subst hi
    rw [if_pos rfl] at h
    cases hlp : lpAt l 0 with
    | some x => rw [hlp] at h; cases h
    | none =>
        refine ⟨fun _ => rfl, fun hsemi => ?_⟩
        rw [hlp, if_pos hsemi] at h
        cases hlp2 : lpAt l (skipWs l 1) with
        | some x => rw [hlp2] at h; cases h
        | none => rfl
  · rw [if_neg hi] at h
    refine ⟨fun h0 => absurd h0 hi, fun hsemi => ?_⟩
    rw [if_pos hsemi] at h
    cases hlp2 : lpAt l (skipWs l (i + 1)) with
    | some x => rw [hlp2] at h; cases h
    | none => rfl


theorem maScanF_iff (l : List Char) :
    ∀ (f i : Nat), l.length + 1 ≤ f + i →
      ∀ u, u ∈ (maScanF l f i).map upperC ↔ maSpecFrom l i u := by
  intro f
  induction f with
  | zero =>
      intro i hfuel u
      simp only [maScanF, List.map_nil, List.not_mem_nil, false_iff]
      rintro ⟨p, a, hp, _, _, _, hsep⟩
      have hplen : p < l.length := (List.get?_eq_some.mp hp).1
      rcases hsep with ⟨rfl, rfl⟩ | ⟨j, hij, hjp, _, _⟩
      · omega
      · omega
  | succ f ih =>
      intro i hfuel u
      by_cases hi : i < l.length
      · cases hm : maMatchAt l i with
        | some pr =>
            obtain ⟨a, e⟩ := pr
            rcases maMatchAt_some l i a e hm with ⟨p, he, hgp, haj, hgp1, hie, hdisj⟩
            have hfuel' : l.length + 1 ≤ f + e := by omega
            simp only [maScanF, if_pos hi, hm, List.map_cons, List.mem_cons]
            rw [ih e hfuel' u]
            constructor
            · rintro (rfl | hrest)
              · refine ⟨p, a, hgp, haj, hgp1, rfl, ?_⟩
                rcases hdisj with ⟨hp0, hi0⟩ | ⟨hsemi, hip, hws⟩
                · exact Or.inl ⟨hp0, hi0⟩
                · exact Or.inr ⟨i, Nat.le_refl i, hip, hsemi, hws⟩
              · rcases hrest with ⟨p', a', hp', haj', hp1', hu', hsep'⟩
                refine ⟨p', a', hp', haj', hp1', hu', ?_⟩
                rcases hsep' with ⟨_, he0⟩ | ⟨j, hej, hjp, hj, hws⟩
                · omega
                · exact Or.inr ⟨j, by omega, hjp, hj, hws⟩
            · rintro ⟨p', a', hp', haj', hp1', hu', hsep'⟩
              by_cases hpp : p' = p
              · subst hpp
                left
                rw [hgp] at hp'
                rcases Option.some.inj hp' with rfl
                exact hu'
              · right
                have hsep'' : ∃ j, i ≤ j ∧ j < p' ∧ l.get? j = some ';' ∧
                    ∀ k, j < k → k < p' → ∃ c, l.get? k = some c ∧ isWsC c := by
                  rcases hsep' with ⟨hp'0, hi0⟩ | hj
                  · exfalso
                    rcases hdisj with ⟨hp0, _⟩ | ⟨hsemi, hip, hwsm⟩
                    · exact hpp (by omega)
                    · rw [hi0] at hsemi
                      rw [hp'0] at hp'
                      rw [hsemi] at hp'
                      rcases Option.some.inj hp' with rfl
                      exact absurd haj' (by decide)
                  · exact hj
                rcases hsep'' with ⟨j, hij, hjp', hj, hws'⟩
                have hej : e ≤ j := by
                  rcases hdisj with ⟨hp0, hi0⟩ | ⟨hsemi, hip, hwsm⟩
                  · by_contra hlt
                    push_neg at hlt
                    have hj01 : j = 0 ∨ j = 1 := by omega
                    rcases hj01 with hj0 | hj0
                    · rw [hj0] at hj
                      rw [hp0] at hgp
                      rw [hj] at hgp
                      rcases Option.some.inj hgp with rfl
                      exact absurd haj (by decide)
                    · rw [hj0] at hj
                      rw [hp0] at hgp1
                      simp only [Nat.zero_add] at hgp1
                      rw [hj] at hgp1
                      exact absurd (Option.some.inj hgp1) (by decide)
                  · by_contra hlt
                    push_neg at hlt
                    rcases Nat.lt_trichotomy j p with hjlt | rfl | hjgt
                    · rcases Nat.eq_or_lt_of_le hij with heq | hij'
                      · have h1 : skipWs l (i + 1) = p :=
                          skipWs_exact l (i + 1) p (by omega)
                            (fun k hk1 hk2 => hwsm k (by omega) hk2)
                            ⟨a, hgp, isAJ_not_ws a haj⟩
                        have h2 : skipWs l (i + 1) = p' :=
                          skipWs_exact l (i + 1) p' (by omega)
                            (fun k hk1 hk2 => hws' k (by omega) hk2)
                            ⟨a', hp', isAJ_not_ws a' haj'⟩
                        exact hpp (by omega)
                      · rcases hwsm j hij' hjlt with ⟨c, hcj, hcw⟩
                        rw [hj] at hcj
                        rcases Option.some.inj hcj with rfl
                        exact absurd hcw (by decide)
                    · rw [hj] at hgp
                      rcases Option.some.inj hgp with rfl
                      exact absurd haj (by decide)
                    · have hj1 : j = p + 1 := by omega
                      rw [hj1] at hj
                      rw [hj] at hgp1
                      exact absurd (Option.some.inj hgp1) (by decide)
                exact ⟨p', a', hp', haj', hp1', hu', Or.inr ⟨j, hej, hjp', hj, hws'⟩⟩
        | none =>
            have hfuel' : l.length + 1 ≤ f + (i + 1) := by omega
            simp only [maScanF, if_pos hi, hm]
            rw [ih (i + 1) hfuel' u]
            rcases maMatchAt_none l i hm with ⟨hm0, hmsemi⟩
            constructor
            · rintro ⟨p, a, hp, haj, hp1, hu, hsep⟩
              refine ⟨p, a, hp, haj, hp1, hu, ?_⟩
              rcases hsep with ⟨hp0, hi10⟩ | ⟨j, hij, hjp, hj, hws⟩
              · omega
              · exact Or.inr ⟨j, by omega, hjp, hj, hws⟩
            · rintro ⟨p, a, hp, haj, hp1, hu, hsep⟩
              refine ⟨p, a, hp, haj, hp1, hu, ?_⟩
              rcases hsep with ⟨hp0, hi0⟩ | ⟨j, hij, hjp, hj, hws⟩
              · exfalso
                have hlp : lpAt l 0 = some a :=
                  (lpAt_some_iff l 0 a).mpr ⟨hp0 ▸ hp, haj, hp0 ▸ hp1⟩
                rw [hm0 hi0] at hlp
                cases hlp
              · rcases Nat.eq_or_lt_of_le hij with heq | hij'
                · exfalso
                  have hjj : l.get? i = some ';' := by rw [heq]; exact hj
                  have hskip : skipWs l (i + 1) = p :=
                    skipWs_exact l (i + 1) p (by omega)
                      (fun k hk1 hk2 => hws k (by omega) hk2)
                      ⟨a, hp, isAJ_not_ws a haj⟩
                  have hlp : lpAt l (skipWs l (i + 1)) = some a := by
                    rw [hskip]
                    exact (lpAt_some_iff l p a).mpr ⟨hp, haj, hp1⟩
                  rw [hmsemi hjj] at hlp
                  cases hlp
                · exact Or.inr ⟨j, by omega, hjp, hj, hws⟩
      · simp only [maScanF, if_neg hi, List.map_nil, List.not_mem_nil, false_iff]
        rintro ⟨p, a, hp, _, _, _, hsep⟩
        have hplen : p < l.length := (List.get?_eq_some.mp hp).1
        rcases hsep with ⟨rfl, rfl⟩ | ⟨j, hij, hjp, _, _⟩
        · omega
        · omega

theorem maSpecFrom_zero (l : List Char) (u : Char) :
    maSpecFrom l 0 u ↔ maSpecMem l u := by
  unfold maSpecFrom maSpecMem sepToPos
  constructor
  · rintro ⟨p, a, hp, haj, hp1, hu, hsep⟩
    refine ⟨p, a, hp, haj, hp1, hu, ?_⟩
    rcases hsep with ⟨hp0, _⟩ | ⟨j, _, hjp, hj, hws⟩
    · exact Or.inl hp0
    · exact Or.inr ⟨j, hjp, hj, hws⟩
  · rintro ⟨p, a, hp, haj, hp1, hu, hsep⟩
    refine ⟨p, a, hp, haj, hp1, hu, ?_⟩
    rcases hsep with hp0 | ⟨j, hjp, hj, hws⟩
    · exact Or.inl ⟨hp0, rfl⟩
    · exact Or.inr ⟨j, Nat.zero_le j, hjp, hj, hws⟩

theorem maLetters_iff (v : Val) (u : Char) :
    u ∈ maLetters v ↔ maSpecMem (pyStrip v.toStr).data u := by
  unfold maLetters
  by_cases hg : (v.isna || pyStrip v.toStr == "") = true
  · rw [if_pos hg]
    simp only [List.not_mem_nil, false_iff]
    intro hspec
    rcases Bool.or_eq_true_iff.mp hg with hna | hempty
    · have hv : v = Val.null := by
        cases v with
        | null => rfl
        | bool b => simp [Val.isna] at hna
        | int n => simp [Val.isna] at hna
        | str s => simp [Val.isna] at hna
      subst hv
      rcases hspec with ⟨p, a, hp, haj, hp1, hu, hsep⟩
      have hplen := (List.get?_eq_some.mp hp).1
      have h3 : (pyStrip (Val.null).toStr).data.length = 3 := by decide
      rw [h3] at hplen
      interval_cases p
      · exact absurd hp1 (by decide)
      · exact absurd hp1 (by decide)
      · exact absurd hp1 (by decide)
    · have hemp : pyStrip v.toStr = "" := by simpa using hempty
      rw [hemp] at hspec
      rcases hspec with ⟨p, a, hp, _⟩
      cases hp
  · rw [if_neg hg]
    rw [← maSpecFrom_zero]
    exact maScanF_iff (pyStrip v.toStr).data ((pyStrip v.toStr).data.length + 1) 0
      (by omega) u

theorem optRowsGo_get (qkey : String) (correct : List Char) :
    ∀ (opts : List String) (j i : Nat) (h : i < (optRowsGo qkey correct j opts).length),
      ((optRowsGo qkey correct j opts).get ⟨i, h⟩).IsCorrect =
        correct.contains (posLetter (j + i)) ∧
      ((optRowsGo qkey correct j opts).get ⟨i, h⟩).OrderIndex = j + i := by
  intro opts
  induction opts with
  | nil => intro j i h; simp [optRowsGo] at h
  | cons o rest ih =>
      intro j i h
      cases i with
      | zero => simp [optRowsGo]
      | succ i =>
          have h' : i < (optRowsGo qkey correct (j + 1) rest).length := by
            simpa [optRowsGo] using h
          have hstep := ih (j + 1) i h'
          have harith : j + 1 + i = j + (i + 1) := by omega
          rw [harith] at hstep
          simp only [optRowsGo, List.get_cons_succ]
          exact hstep

/-- C3 (counterexample to the claim as stated): the extraction also accepts a
    semicolon with no following space ("A);B)" yields B), and it works on the
    stripped text (" A)" yields A), while the claimed rule — exact "; "
    separator over the raw text — rejects both letters. -/
theorem c3_counterexample :
    ('B' ∈ maLetters (Val.str "A);B)") ∧ 'B' ∉ claimedMALetters "A);B)") ∧
    ('A' ∈ maLetters (Val.str " A)") ∧ 'A' ∉ claimedMALetters " A)") := by
  decide

/-- C3 (amended): for a multiple_answer question, the extracted correct-letter
    set is exactly the set of uppercased letters A-J that appear in the
    stripped Correct Options text immediately preceded by start-of-string or
    by ';' followed by a possibly-empty whitespace run, and immediately
    followed by ')'; "A); C); E)" yields A, C, E, and the option at 1-based
    position i is marked IsCorrect exactly when its position letter is in the
    extracted set, all others false. -/
theorem c3_multiple_answer :
    (∀ (v : Val) (u : Char), u ∈ maLetters v ↔ maSpecMem (pyStrip v.toStr).data u) ∧
    maLetters (Val.str "A); C); E)") = ['A', 'C', 'E'] ∧
    (∀ (qkey : String) (correct : List Char) (opts : List String) (i : Nat)
      (h : i < (optRowsGo qkey correct 1 opts).length),
      ((optRowsGo qkey correct 1 opts).get ⟨i, h⟩).IsCorrect =
        correct.contains (posLetter (i + 1)) ∧
      ((optRowsGo qkey correct 1 opts).get ⟨i, h⟩).OrderIndex = i + 1) := by
  refine ⟨maLetters_iff, by decide, fun qkey correct opts i h => ?_⟩
  have hstep := optRowsGo_get qkey correct opts 1 i h
  have harith : 1 + i = i + 1 := by omega
  rw [harith] at hstep
  exact hstep

/-- C3 witness: the extraction and option marking at the concrete
    "A); C); E)" input. -/
theorem c3_witness :
    ((optRowsGo "Q-K-001" (maLetters (Val.str "A); C); E)")) 1 ["x", "y", "z"]).get
        ⟨0, by decide⟩).IsCorrect =
      (maLetters (Val.str "A); C); E)")).contains (posLetter (0 + 1)) ∧
    ((optRowsGo "Q-K-001" (maLetters (Val.str "A); C); E)")) 1 ["x", "y", "z"]).get
        ⟨0, by decide⟩).OrderIndex = 0 + 1 :=
  c3_multiple_answer.2.2 "Q-K-001" (maLetters (Val.str "A); C); E)")) ["x", "y", "z"]
    0 (by decide)
